import Mathlib

/-!
Shallow embedding of the file ingestion and synchronization engine of the
inventory-generator application (Rust sources under src-tauri/src):
file_utils.rs, file_ingestion.rs, file_cleanup.rs, file_operations.rs and the
orchestrating command ingest_files_to_case in lib.rs.

Modelling conventions:
* file contents are abstracted as natural numbers and the SHA-256 digest is an
  arbitrary function hash : Nat -> Nat passed explicitly;
* the filesystem is an association list from absolute paths to files;
* the SQLite tables are Lean lists of rows, kept in insertion order; queries
  translate to find? / filter over those lists, and row updates to map;
* Uuid parse validation is abstracted as a predicate validId : String -> Bool,
  and validate_and_canonicalize_path as validPath : String -> Bool;
* async effects are dropped; every fallible operation returns Except String;
* out-of-scope enrichment (inventory metadata JSON, timeline events, the
  file_metadata table) is omitted; no claim refers to it.

process_file_async additionally returns the number of invocations of
calculate_file_hash_secure, so that theorems can speak about when the content
fingerprint is (or is not) computed; the Rust function returns just the record.
-/

namespace Inventory

/-- A file on disk: abstract content plus the metadata the scanner reads. -/
structure FsFile where
  content : Nat
  size : Int
  created_at : Int
  modified_at : Int
deriving DecidableEq

/-- The filesystem: association list from absolute path to file. -/
abbrev FileSystem := List (String × FsFile)

/-- Path lookup on the filesystem (models tokio::fs metadata/open/try_exists). -/
def fsLookup (fs : FileSystem) (p : String) : Option FsFile :=
  (fs.find? (fun e => decide (e.1 = p))).map (fun e => e.2)

/-- file_utils.rs FileMetadata: size and timestamps as returned by
get_file_metadata_async. -/
structure FileMetadata where
  size : Int
  created_at : Int
  modified_at : Int
deriving DecidableEq

/-- file_utils.rs get_file_metadata_async: errors when the file is absent. -/
def get_file_metadata_async (fs : FileSystem) (p : String) :
    Except String FileMetadata :=
  match fsLookup fs p with
  | some f => .ok ⟨f.size, f.created_at, f.modified_at⟩
  | none => .error "Failed to get metadata"

/-- file_utils.rs calculate_file_hash_secure: SHA-256 of the file bytes,
modelled as an arbitrary digest function applied to the abstract content. -/
def calculate_file_hash_secure (hash : Nat → Nat) (fs : FileSystem)
    (p : String) : Except String Nat :=
  match fsLookup fs p with
  | some f => .ok (hash f.content)
  | none => .error "Failed to hash file"

/-- file_utils.rs metadata_matches: fast-path check, size and mtime equal. -/
def metadata_matches (meta : FileMetadata) (existing_size existing_modified : Int) :
    Bool :=
  decide (meta.size = existing_size) && decide (meta.modified_at = existing_modified)

/-- One row of the files table (columns used by the embedded fragment). -/
structure FileRow where
  id : String
  case_id : String
  file_name : String
  folder_path : String
  absolute_path : String
  file_hash : Option Nat
  file_type : String
  file_size : Int
  created_at : Int
  modified_at : Int
  updated_at : Int
  status : String
  tags : Option String
  source_directory : String
  deleted_at : Option Int
deriving DecidableEq

/-- One row of the notes table (columns used by cleanup protection). -/
structure NoteRow where
  id : String
  case_id : String
  file_id : Option String
deriving DecidableEq

/-- One row of the findings table; linked_files is the parsed JSON id array. -/
structure FindingRow where
  id : String
  case_id : String
  linked_files : Option (List String)
deriving DecidableEq

/-- One row of the duplicate_groups table; primary key is (group_id, file_id).
group_id is the shared content hash. -/
structure DupRow where
  group_id : Nat
  file_id : String
  is_primary : Bool
  created_at : Int
deriving DecidableEq

/-- One row of the case_sources table. -/
structure CaseSourceRow where
  case_id : String
  source_path : String
  source_location : String
deriving DecidableEq

/-- The persistent store: the tables touched by the embedded fragment. -/
structure Db where
  files : List FileRow
  notes : List NoteRow
  findings : List FindingRow
  duplicate_groups : List DupRow
  case_sources : List CaseSourceRow
deriving DecidableEq

/-- scanner.rs FileMetadata: the per-file record produced by the tree walker
(fields consumed by ingestion). -/
structure ScannerFileMetadata where
  file_name : String
  folder_path : String
  absolute_path : String
  file_type : String
deriving DecidableEq

/-- file_ingestion.rs FileAction. -/
inductive FileAction where
  | Insert : FileAction
  | Update : String → FileAction
  | Skip : FileAction
deriving DecidableEq

/-- file_ingestion.rs ProcessedFile (inventory_data omitted, see header). -/
structure ProcessedFile where
  file_id : String
  case_id : String
  file_name : String
  folder_path : String
  absolute_path : String
  file_hash : Option Nat
  file_type : String
  file_size : Int
  created_at : Int
  modified_at : Int
  source_directory : String
  action : FileAction
deriving DecidableEq

/-- The files-table row lookup at the top of process_file_async:
SELECT .. FROM files WHERE case_id = ? AND absolute_path = ?  (fetch_optional,
soft-deleted rows included on purpose). -/
def findByPath (db : Db) (case_id absolute_path : String) : Option FileRow :=
  db.files.find? (fun r => decide (r.case_id = case_id ∧ r.absolute_path = absolute_path))

/-- The rename-candidate query of process_file_async:
same case and hash, different path, same source_directory, not soft-deleted. -/
def renameCandidates (db : Db) (case_id : String) (h : Nat)
    (absolute_path folder_path : String) : List FileRow :=
  db.files.filter (fun r =>
    decide (r.case_id = case_id ∧ r.file_hash = some h ∧
      r.absolute_path ≠ absolute_path ∧ r.source_directory = folder_path) &&
    r.deleted_at.isNone)

/-- file_ingestion.rs process_file_async: the change classifier (with the
rename resolver inlined, as in the source).  The second component of the
result counts invocations of calculate_file_hash_secure.  fresh_id stands for
the Uuid::new_v4 drawn in the Insert branch. -/
def process_file_async (hash : Nat → Nat) (fs : FileSystem) (db : Db)
    (fm : ScannerFileMetadata) (case_id folder_path : String)
    (incremental : Bool) (fresh_id : String) :
    Except String (ProcessedFile × Nat) :=
  match get_file_metadata_async fs fm.absolute_path with
  | .error e => .error e
  | .ok file_meta =>
    let existing_file : Option FileRow :=
      if incremental then findByPath db case_id fm.absolute_path else none
    match existing_file with
    | some row =>
      -- If file was soft-deleted, skip re-adding it
      if row.deleted_at.isSome then
        .ok ({ file_id := row.id, case_id := case_id, file_name := fm.file_name,
               folder_path := fm.folder_path, absolute_path := fm.absolute_path,
               file_hash := row.file_hash, file_type := fm.file_type,
               file_size := row.file_size, created_at := 0,
               modified_at := row.modified_at, source_directory := folder_path,
               action := .Skip }, 0)
      else
        let needs_hash_check :=
          decide (row.status = "reviewed") || decide (row.status = "flagged") ||
          decide (row.status = "finalized")
        let metadata_changed := ! metadata_matches file_meta row.file_size row.modified_at
        let should_hash := metadata_changed || needs_hash_check
        if ! should_hash then
          -- File unchanged: skip hashing entirely
          .ok ({ file_id := row.id, case_id := case_id, file_name := fm.file_name,
                 folder_path := fm.folder_path, absolute_path := fm.absolute_path,
                 file_hash := row.file_hash, file_type := fm.file_type,
                 file_size := file_meta.size, created_at := file_meta.created_at,
                 modified_at := file_meta.modified_at,
                 source_directory := folder_path, action := .Skip }, 0)
        else
          match calculate_file_hash_secure hash fs fm.absolute_path with
          | .error e => .error e
          | .ok h =>
            -- Double-check hash matches (metadata check may be a false positive)
            if row.file_hash = some h then
              .ok ({ file_id := row.id, case_id := case_id,
                     file_name := fm.file_name, folder_path := fm.folder_path,
                     absolute_path := fm.absolute_path, file_hash := some h,
                     file_type := fm.file_type, file_size := file_meta.size,
                     created_at := file_meta.created_at,
                     modified_at := file_meta.modified_at,
                     source_directory := folder_path, action := .Skip }, 1)
            else
              .ok ({ file_id := row.id, case_id := case_id,
                     file_name := fm.file_name, folder_path := fm.folder_path,
                     absolute_path := fm.absolute_path, file_hash := some h,
                     file_type := fm.file_type, file_size := file_meta.size,
                     created_at := file_meta.created_at,
                     modified_at := file_meta.modified_at,
                     source_directory := folder_path,
                     action := .Update row.id }, 1)
    | none =>
      -- Not found by path: hash and look for a rename before inserting
      match calculate_file_hash_secure hash fs fm.absolute_path with
      | .error e => .error e
      | .ok h =>
        let candidate_files := renameCandidates db case_id h fm.absolute_path folder_path
        -- first candidate whose recorded path no longer exists on disk
        let renamed_file := candidate_files.find? (fun r => (fsLookup fs r.absolute_path).isNone)
        match renamed_file with
        | some cand =>
          .ok ({ file_id := cand.id, case_id := case_id, file_name := fm.file_name,
                 folder_path := fm.folder_path, absolute_path := fm.absolute_path,
                 file_hash := some h, file_type := fm.file_type,
                 file_size := file_meta.size, created_at := file_meta.created_at,
                 modified_at := file_meta.modified_at,
                 source_directory := folder_path,
                 action := .Update cand.id }, 1)
        | none =>
          .ok ({ file_id := fresh_id, case_id := case_id, file_name := fm.file_name,
                 folder_path := fm.folder_path, absolute_path := fm.absolute_path,
                 file_hash := some h, file_type := fm.file_type,
                 file_size := file_meta.size, created_at := file_meta.created_at,
                 modified_at := file_meta.modified_at,
                 source_directory := folder_path, action := .Insert }, 1)

/-- The row written by one INSERT of batch_insert_files: status starts at
'unreviewed', updated_at is set to modified_at, no tags, not deleted. -/
def insertedRow (file : ProcessedFile) : FileRow :=
  { id := file.file_id, case_id := file.case_id, file_name := file.file_name,
    folder_path := file.folder_path, absolute_path := file.absolute_path,
    file_hash := file.file_hash, file_type := file.file_type,
    file_size := file.file_size, created_at := file.created_at,
    modified_at := file.modified_at, updated_at := file.modified_at,
    status := "unreviewed", tags := none,
    source_directory := file.source_directory, deleted_at := none }

/-- file_ingestion.rs batch_insert_files: one transaction appending a row per
processed file, in list order. -/
def batch_insert_files (db : Db) (files : List ProcessedFile) : Db :=
  { db with files := db.files ++ files.map insertedRow }

/-- The column writes of one UPDATE statement of batch_update_files; when
new_status is none the status column is left untouched (the branch without the
status assignment). -/
def applyUpdateRow (file : ProcessedFile) (now : Int) (new_status : Option String)
    (r : FileRow) : FileRow :=
  { r with
    file_name := file.file_name, folder_path := file.folder_path,
    absolute_path := file.absolute_path, file_hash := file.file_hash,
    file_size := file.file_size, modified_at := file.modified_at,
    updated_at := now, status := new_status.getD r.status }

/-- The demotion rule of batch_update_files: reviewed/flagged auto-transition
to in_progress when the file is updated. -/
def demoteStatus (current_status : String) : Option String :=
  if current_status = "reviewed" ∨ current_status = "flagged" then
    some "in_progress"
  else none

/-- One iteration of the batch_update_files loop: read the current status of
the targeted row (fetch_optional), then run the UPDATE ... WHERE id = ?
statement (which touches every row with that id). -/
def apply_update_one (db : Db) (file : ProcessedFile) (now : Int) : Db :=
  match file.action with
  | .Update file_id =>
    let status_row := db.files.find? (fun r => decide (r.id = file_id))
    let new_status : Option String :=
      match status_row with
      | some row => demoteStatus row.status
      | none => none
    { db with files := db.files.map (fun r =>
        if r.id = file_id then applyUpdateRow file now new_status r else r) }
  | _ => db

/-- file_ingestion.rs batch_update_files: one transaction running the loop
over the processed files in list order. -/
def batch_update_files (db : Db) (files : List ProcessedFile) (now : Int) : Db :=
  files.foldl (fun d f => apply_update_one d f now) db

/-- lib.rs IngestResult (per-pass summary). -/
structure IngestResult where
  files_inserted : Nat
  files_updated : Nat
  files_skipped : Nat
  total_files : Nat
  errors : List String
deriving DecidableEq

/-- Classification outcomes of one pass: every walked file is classified
against the pre-pass store (the batch writers run only afterwards).
idFn i is the Uuid::new_v4 drawn for the walked file at index i. -/
def passResults (hash : Nat → Nat) (fs : FileSystem) (db : Db)
    (case_id folder_path : String) (walked : List ScannerFileMetadata)
    (idFn : Nat → String) (incremental : Bool) :
    List (Except String (ProcessedFile × Nat)) :=
  walked.enum.map (fun p =>
    process_file_async hash fs db p.2 case_id folder_path incremental (idFn p.1))

/-- The successfully classified files of one pass (per-file errors are
dropped from the batches, as in the orchestrator). -/
def passProcessed (hash : Nat → Nat) (fs : FileSystem) (db : Db)
    (case_id folder_path : String) (walked : List ScannerFileMetadata)
    (idFn : Nat → String) (incremental : Bool) : List ProcessedFile :=
  (passResults hash fs db case_id folder_path walked idFn incremental).filterMap
    (fun r => (r.toOption).map (fun p => p.1))

/-- The per-file error strings of one pass. -/
def passErrors (hash : Nat → Nat) (fs : FileSystem) (db : Db)
    (case_id folder_path : String) (walked : List ScannerFileMetadata)
    (idFn : Nat → String) (incremental : Bool) : List String :=
  (passResults hash fs db case_id folder_path walked idFn incremental).filterMap
    (fun r => match r with | .error e => some e | .ok _ => none)

/-- The Insert partition of one pass. -/
def passInserts (hash : Nat → Nat) (fs : FileSystem) (db : Db)
    (case_id folder_path : String) (walked : List ScannerFileMetadata)
    (idFn : Nat → String) (incremental : Bool) : List ProcessedFile :=
  (passProcessed hash fs db case_id folder_path walked idFn incremental).filter
    (fun p => decide (p.action = .Insert))

/-- The Update partition of one pass. -/
def passUpdates (hash : Nat → Nat) (fs : FileSystem) (db : Db)
    (case_id folder_path : String) (walked : List ScannerFileMetadata)
    (idFn : Nat → String) (incremental : Bool) : List ProcessedFile :=
  (passProcessed hash fs db case_id folder_path walked idFn incremental).filter
    (fun p => match p.action with | .Update _ => true | _ => false)

/-- The Skip partition of one pass. -/
def passSkips (hash : Nat → Nat) (fs : FileSystem) (db : Db)
    (case_id folder_path : String) (walked : List ScannerFileMetadata)
    (idFn : Nat → String) (incremental : Bool) : List ProcessedFile :=
  (passProcessed hash fs db case_id folder_path walked idFn incremental).filter
    (fun p => decide (p.action = .Skip))

/-- lib.rs ingest_files_to_case, the sync orchestrator: classify every walked
file against the pre-pass store, partition into Insert/Update/Skip, apply all
inserts in one transaction and then all updates in one transaction. -/
def ingest_files_to_case (hash : Nat → Nat) (fs : FileSystem) (db : Db)
    (case_id folder_path : String) (walked : List ScannerFileMetadata)
    (idFn : Nat → String) (incremental : Bool) (now : Int) :
    Db × IngestResult :=
  let to_insert := passInserts hash fs db case_id folder_path walked idFn incremental
  let to_update := passUpdates hash fs db case_id folder_path walked idFn incremental
  let skipped := passSkips hash fs db case_id folder_path walked idFn incremental
  let db1 := batch_insert_files db to_insert
  let db2 := batch_update_files db1 to_update now
  (db2, { files_inserted := to_insert.length, files_updated := to_update.length,
          files_skipped := skipped.length,
          total_files := to_insert.length + to_update.length,
          errors := passErrors hash fs db case_id folder_path walked idFn incremental })

/-! ### file_cleanup.rs -/

/-- SQLite parameter limit headroom used by file_cleanup.rs. -/
def MAX_BATCH_SIZE : Nat := 900

/-- file_ids.chunks(MAX_BATCH_SIZE). -/
def chunksOf {α : Type} (l : List α) : List (List α) :=
  match l with
  | [] => []
  | x :: xs =>
    (x :: xs).take MAX_BATCH_SIZE :: chunksOf ((x :: xs).drop MAX_BATCH_SIZE)
termination_by l.length
decreasing_by simp [MAX_BATCH_SIZE]; omega

/-- file_cleanup.rs CleanupResult. -/
structure CleanupResult where
  files_deleted : Nat
  files_protected : Nat
deriving DecidableEq

/-- file_cleanup.rs detect_missing_files: non-deleted rows of this case and
source whose absolute path is not in the scanned set. -/
def detect_missing_files (db : Db) (case_id source_directory : String)
    (scanned_file_paths : List String) : List String :=
  ((db.files.filter (fun r =>
      decide (r.case_id = case_id ∧ r.source_directory = source_directory) &&
      r.deleted_at.isNone)).filter (fun r =>
      ! decide (r.absolute_path ∈ scanned_file_paths))).map (fun r => r.id)

/-- file_cleanup.rs validate_file_ids, with Uuid::parse_str abstracted as the
validId predicate. -/
def validate_file_ids (validId : String → Bool) (file_ids : List String) :
    Except String Unit :=
  if file_ids.all validId then .ok () else .error "Invalid file_id format"

/-- file_cleanup.rs check_file_status_chunked: per chunk, ids of files of this
case in the chunk whose status differs from 'unreviewed'. -/
def check_file_status_chunked (db : Db) (case_id : String)
    (file_ids : List String) : List String :=
  (chunksOf file_ids).foldl (fun acc chunk =>
    acc ++ (db.files.filter (fun r =>
      decide (r.case_id = case_id ∧ r.id ∈ chunk ∧ r.status ≠ "unreviewed"))).map
        (fun r => r.id)) []

/-- HashSet::insert on the list modelling a set of ids. -/
def hsInsert (s : List String) (x : String) : List String :=
  if x ∈ s then s else s ++ [x]

/-- Inserting a batch of ids into the set. -/
def hsInsertAll (s : List String) (xs : List String) : List String :=
  xs.foldl hsInsert s

/-- SELECT DISTINCT on a projected id column: keep first occurrences. -/
def sqlDistinct (l : List String) : List String :=
  l.foldl hsInsert []

/-- file_cleanup.rs check_notes_chunked: per chunk, DISTINCT non-null note
file_ids of this case lying in the chunk. -/
def check_notes_chunked (db : Db) (case_id : String)
    (file_ids : List String) : List String :=
  (chunksOf file_ids).foldl (fun acc chunk =>
    acc ++ sqlDistinct ((db.notes.filterMap (fun n =>
      if n.case_id = case_id then n.file_id else none)).filter (fun f =>
        decide (f ∈ chunk)))) []

/-- One findings row of the protection loop: when the finding belongs to the
case, every linked file id lying in file_ids is inserted. -/
def findingStep (case_id : String) (file_ids : List String)
    (acc : List String) (fr : FindingRow) : List String :=
  if fr.case_id = case_id then
    match fr.linked_files with
    | some linked =>
      linked.foldl (fun a x => if x ∈ file_ids then hsInsert a x else a) acc
    | none => acc
  else acc

/-- The findings phase of batch_check_files_for_protection. -/
def findingProtected (db : Db) (case_id : String) (file_ids : List String)
    (s : List String) : List String :=
  db.findings.foldl (findingStep case_id file_ids) s

/-- file_cleanup.rs batch_check_files_for_protection: ids having non-default
status, an attached note, or a finding reference. -/
def batch_check_files_for_protection (validId : String → Bool) (db : Db)
    (case_id : String) (file_ids : List String) :
    Except String (List String) :=
  if file_ids.isEmpty then .ok []
  else
    match validate_file_ids validId file_ids with
    | .error e => .error e
    | .ok _ =>
      if ! validId case_id then .error "Invalid case_id format"
      else
        let s1 := hsInsertAll [] (check_file_status_chunked db case_id file_ids)
        let s2 := hsInsertAll s1 (check_notes_chunked db case_id file_ids)
        .ok (findingProtected db case_id file_ids s2)

/-- One chunked UPDATE files SET deleted_at = ? WHERE id IN (...) statement:
marks every row whose id lies in the chunk and adds the statement's
rows_affected to the running count. -/
def softDeleteChunk (deleted_at : Int) (st : Db × Nat) (chunk : List String) :
    Db × Nat :=
  ({ st.1 with files := st.1.files.map (fun r =>
      if r.id ∈ chunk then { r with deleted_at := some deleted_at } else r) },
   st.2 + (st.1.files.filter (fun r => decide (r.id ∈ chunk))).length)

/-- file_cleanup.rs batch_soft_delete_files: chunked
UPDATE files SET deleted_at = ? WHERE id IN (...); returns the store and the
summed rows_affected. -/
def batch_soft_delete_files (validId : String → Bool) (db : Db)
    (file_ids : List String) (deleted_at : Int) : Except String (Db × Nat) :=
  if file_ids.isEmpty then .ok (db, 0)
  else
    match validate_file_ids validId file_ids with
    | .error e => .error e
    | .ok _ =>
      .ok ((chunksOf file_ids).foldl (softDeleteChunk deleted_at) (db, 0))

/-- file_cleanup.rs cleanup_orphaned_files: detect missing rows, partition
into protected and deletable, soft-delete the deletable ids. -/
def cleanup_orphaned_files (validId : String → Bool) (db : Db)
    (case_id source_directory : String) (scanned_file_paths : List String)
    (deleted_at : Int) : Except String (Db × CleanupResult) :=
  if ! validId case_id then .error "Invalid case_id format"
  else if source_directory.isEmpty || decide (source_directory.length > 4096) then
    .error "Invalid source_directory: empty or too long"
  else
    let missing := detect_missing_files db case_id source_directory scanned_file_paths
    if missing.isEmpty then .ok (db, ⟨0, 0⟩)
    else
      match batch_check_files_for_protection validId db case_id missing with
      | .error e => .error e
      | .ok protectedIds =>
        let deletable := missing.filter (fun fid => ! decide (fid ∈ protectedIds))
        let deleted : Except String (Db × Nat) :=
          if ! deletable.isEmpty then
            batch_soft_delete_files validId db deletable deleted_at
          else .ok (db, 0)
        match deleted with
        | .error e => .error e
        | .ok (db', files_deleted) =>
          .ok (db', ⟨files_deleted, protectedIds.length⟩)

/-! ### file_operations.rs check_file_staleness (cache-miss computation) -/

/-- file_operations.rs StalenessResult. -/
inductive StalenessResult where
  | Fresh : StalenessResult
  | Modified : StalenessResult
  | Deleted : StalenessResult
deriving DecidableEq

/-- file_operations.rs check_file_staleness, the computation performed on a
cache miss (the short-lived advisory cache only replays a recent result).
validPath abstracts validate_and_canonicalize_path. -/
def check_file_staleness (hash : Nat → Nat) (validPath : String → Bool)
    (fs : FileSystem) (db : Db) (file_id : String) :
    Except String StalenessResult :=
  match db.files.find? (fun r => decide (r.id = file_id) && r.deleted_at.isNone) with
  | none => .error "File not found or has been deleted"
  | some row =>
    if ! validPath row.absolute_path then .ok .Deleted
    else
      match fsLookup fs row.absolute_path with
      | none => .ok .Deleted
      | some f =>
        let metadata_changed :=
          decide (f.size ≠ row.file_size) || decide (f.modified_at ≠ row.modified_at)
        let needs_hash_check :=
          metadata_changed || decide (row.status = "reviewed") ||
          decide (row.status = "flagged") || decide (row.status = "finalized")
        let hash_changed : Option Bool :=
          match row.file_hash with
          | some stored =>
            if needs_hash_check then some (decide (hash f.content ≠ stored)) else none
          | none => none
        let changed := metadata_changed || hash_changed.getD false
        .ok (if changed then .Modified else .Fresh)

/-! ### file_ingestion.rs batch_create_duplicate_groups -/

/-- The group-creation inserts: the first discovered existing duplicate
becomes primary, the rest are appended as non-primary. -/
def createGroupRows (group_id : Nat) (now : Int) : List String → List DupRow
  | [] => []
  | x :: xs =>
    ⟨group_id, x, true, now⟩ :: xs.map (fun fid => ⟨group_id, fid, false, now⟩)

/-- The existing-duplicates query of batch_create_duplicate_groups: DISTINCT
ids of non-deleted same-case same-hash rows other than the current file whose
source is a local case source, LIMIT 100. -/
def existingDuplicateIds (db : Db) (case_id : String) (h : Nat)
    (file_id : String) : List String :=
  (sqlDistinct ((db.files.filter (fun r =>
      decide (r.case_id = case_id ∧ r.file_hash = some h ∧ r.id ≠ file_id) &&
      r.deleted_at.isNone &&
      db.case_sources.any (fun cs =>
        decide (cs.case_id = r.case_id ∧ cs.source_location = "local" ∧
          r.source_directory = cs.source_path)))).map (fun r => r.id))).take 100

/-- One iteration of the batch_create_duplicate_groups loop; returns the
store and the counter increment. -/
def create_dup_groups_one (db : Db) (case_id : String) (file : ProcessedFile)
    (now : Int) : Db × Nat :=
  match file.file_hash with
  | none => (db, 0)
  | some h =>
    let existing_duplicates := existingDuplicateIds db case_id h file.file_id
    if existing_duplicates.isEmpty then (db, 0)
    else
      let group_id := h
      let group_exists := db.duplicate_groups.any (fun d => decide (d.group_id = group_id))
      let dups1 :=
        if group_exists then db.duplicate_groups
        else db.duplicate_groups ++ createGroupRows group_id now existing_duplicates
      -- INSERT OR IGNORE of the current file as a non-primary member
      let dups2 :=
        if dups1.any (fun d => decide (d.group_id = group_id ∧ d.file_id = file.file_id)) then
          dups1
        else dups1 ++ [⟨group_id, file.file_id, false, now⟩]
      ({ db with duplicate_groups := dups2 }, 1)

/-- file_ingestion.rs batch_create_duplicate_groups: the transaction looping
over the newly processed files. -/
def batch_create_duplicate_groups (db : Db) (case_id : String)
    (files : List ProcessedFile) (now : Int) : Db × Nat :=
  files.foldl (fun st f =>
    let r := create_dup_groups_one st.1 case_id f now
    (r.1, st.2 + r.2)) (db, 0)

/-! ## Shared helper lemmas -/

theorem find_congr {α : Type} {p q : α → Bool} (l : List α)
    (h : ∀ x ∈ l, p x = q x) : l.find? p = l.find? q := by
  induction l with
  | nil => rfl
  | cons a t ih =>
    have ha : p a = q a := h a (by simp)
    cases hqa : q a with
    | true =>
      rw [List.find?_cons_of_pos _ (ha.trans hqa), List.find?_cons_of_pos _ hqa]
    | false =>
      rw [List.find?_cons_of_neg _ (by simp [ha, hqa]),
        List.find?_cons_of_neg _ (by simp [hqa])]
      exact ih (fun x hx => h x (by simp [hx]))

/-! ## C4: staleness verdict -/

/-- Concrete input refuting C4: the stored fingerprint 42 equals the
recomputed one (digest is the identity on content 42), only the modification
time drifted (stored 1, on disk 2). -/
def c4Row : FileRow :=
  { id := "f1", case_id := "c", file_name := "a", folder_path := "",
    absolute_path := "/A", file_hash := some 42, file_type := "",
    file_size := 1, created_at := 0, modified_at := 1, updated_at := 0,
    status := "unreviewed", tags := none, source_directory := "/src",
    deleted_at := none }

/-- The store holding just c4Row. -/
def c4Db : Db :=
  { files := [c4Row], notes := [], findings := [], duplicate_groups := [],
    case_sources := [] }

/-- The disk state for the C4 counterexample: same content, drifted mtime. -/
def c4Fs : FileSystem :=
  [("/A", { content := 42, size := 1, created_at := 0, modified_at := 2 })]

/-- C4 counterexample: a file whose metadata differs from the stored values
but whose recomputed fingerprint equals the stored one is reported Modified,
not Fresh as the claim states. -/
theorem C4_staleness_counterexample :
    check_file_staleness id (fun _ => true) c4Fs c4Db "f1" = .ok .Modified ∧
    check_file_staleness id (fun _ => true) c4Fs c4Db "f1" ≠ .ok .Fresh := by
  refine ⟨rfl, fun h => ?_⟩
  exact StalenessResult.noConfusion (Except.ok.inj h)

/-- C4 amended, spec side: Deleted when the file is absent; otherwise the
fingerprint is recomputed when a stored fingerprint exists and either the
metadata differs or the status is critical, and the verdict is Modified
exactly when the metadata differs or the recomputed fingerprint mismatches
the stored one; Fresh otherwise. -/
def stalenessVerdictSpec (hash : Nat → Nat) (row : FileRow)
    (onDisk : Option FsFile) : StalenessResult :=
  match onDisk with
  | none => .Deleted
  | some f =>
    let metadata_differs :=
      decide (f.size ≠ row.file_size) || decide (f.modified_at ≠ row.modified_at)
    let critical :=
      decide (row.status = "reviewed") || decide (row.status = "flagged") ||
      decide (row.status = "finalized")
    let recomputed_mismatch :=
      match row.file_hash with
      | some stored => (metadata_differs || critical) && decide (hash f.content ≠ stored)
      | none => false
    if metadata_differs || recomputed_mismatch then .Modified else .Fresh

/-- C4 amended: for an entry present in the catalog (not soft-deleted, with a
structurally valid path), the staleness check returns Deleted when the
backing file is absent from disk; when present, it returns Modified exactly
when the metadata differs or the recomputed fingerprint (computed only when a
stored one exists and metadata differs or status is critical) mismatches the
stored one, else Fresh.  In particular metadata drift with an identical
recomputed fingerprint yields Modified, not Fresh. -/
theorem C4_staleness_amended (hash : Nat → Nat) (validPath : String → Bool)
    (fs : FileSystem) (db : Db) (file_id : String) (row : FileRow)
    (hrow : db.files.find? (fun r => decide (r.id = file_id) && r.deleted_at.isNone)
      = some row)
    (hvp : validPath row.absolute_path = true) :
    check_file_staleness hash validPath fs db file_id =
      .ok (stalenessVerdictSpec hash row (fsLookup fs row.absolute_path)) := by
  unfold check_file_staleness stalenessVerdictSpec
  rw [hrow]
  simp only [hvp, Bool.not_true, Bool.false_eq_true, if_false]
  cases hfs : fsLookup fs row.absolute_path with
  | none => rfl
  | some f =>
    cases hh : row.file_hash with
    | none =>
      simp only [Option.getD_none, Bool.or_false]
    | some stored =>
      simp only []
      generalize decide (f.size ≠ row.file_size) = b1
      generalize decide (f.modified_at ≠ row.modified_at) = b2
      generalize decide (row.status = "reviewed") = b3
      generalize decide (row.status = "flagged") = b4
      generalize decide (row.status = "finalized") = b5
      cases b1 <;> cases b2 <;> cases b3 <;> cases b4 <;> cases b5 <;> simp

/-- Witness for C4_staleness_amended at a concrete input. -/
theorem C4_staleness_amended_witness :
    check_file_staleness id (fun _ => true) c4Fs c4Db "f1" =
      .ok (stalenessVerdictSpec id c4Row (fsLookup c4Fs c4Row.absolute_path)) :=
  C4_staleness_amended id (fun _ => true) c4Fs c4Db "f1" c4Row (by rfl) (by rfl)

/-! ## C5: touch tolerance -/

/-- C5: for a walked file with an existing catalog entry by path, when the
metadata (size or mtime) differs from the stored values but the freshly
computed fingerprint equals the stored one, the classifier returns Skip (the
fingerprint having been computed once), not Update. -/
theorem C5_touch_tolerance (hash : Nat → Nat) (fs : FileSystem) (db : Db)
    (fm : ScannerFileMetadata) (case_id folder_path fresh_id : String)
    (row : FileRow) (f : FsFile)
    (hfs : fsLookup fs fm.absolute_path = some f)
    (hrow : findByPath db case_id fm.absolute_path = some row)
    (hdel : row.deleted_at = none)
    (hmeta : f.size ≠ row.file_size ∨ f.modified_at ≠ row.modified_at)
    (hhash : row.file_hash = some (hash f.content)) :
    ∃ pf : ProcessedFile,
      process_file_async hash fs db fm case_id folder_path true fresh_id
        = .ok (pf, 1) ∧ pf.action = .Skip := by
  have hmm : metadata_matches ⟨f.size, f.created_at, f.modified_at⟩
      row.file_size row.modified_at = false := by
    unfold metadata_matches
    rcases hmeta with h | h <;> simp [h]
  refine ⟨{ file_id := row.id, case_id := case_id, file_name := fm.file_name,
            folder_path := fm.folder_path, absolute_path := fm.absolute_path,
            file_hash := some (hash f.content), file_type := fm.file_type,
            file_size := f.size, created_at := f.created_at,
            modified_at := f.modified_at, source_directory := folder_path,
            action := .Skip }, ?_, rfl⟩
  simp only [process_file_async, get_file_metadata_async,
    calculate_file_hash_secure, hfs, hrow, hdel, hmm, hhash, if_true]
  simp

/-! ## C6: fast-path correctness -/

/-- C6: for a walked file with an existing, non-soft-deleted catalog entry by
path whose stored size and mtime equal the on-disk values, the classifier
returns Skip without computing the fingerprint (zero digest invocations) when
the status is not critical; when the status is reviewed, flagged or finalized
the fingerprint is computed (one digest invocation) even though the metadata
matches. -/
theorem C6_fast_path (hash : Nat → Nat) (fs : FileSystem) (db : Db)
    (fm : ScannerFileMetadata) (case_id folder_path fresh_id : String)
    (row : FileRow) (f : FsFile)
    (hfs : fsLookup fs fm.absolute_path = some f)
    (hrow : findByPath db case_id fm.absolute_path = some row)
    (hdel : row.deleted_at = none)
    (hsize : f.size = row.file_size)
    (hmtime : f.modified_at = row.modified_at) :
    ((row.status ≠ "reviewed" ∧ row.status ≠ "flagged" ∧ row.status ≠ "finalized") →
      ∃ pf : ProcessedFile,
        process_file_async hash fs db fm case_id folder_path true fresh_id
          = .ok (pf, 0) ∧ pf.action = .Skip) ∧
    ((row.status = "reviewed" ∨ row.status = "flagged" ∨ row.status = "finalized") →
      ∃ pf : ProcessedFile,
        process_file_async hash fs db fm case_id folder_path true fresh_id
          = .ok (pf, 1)) := by
  have hmm : metadata_matches ⟨f.size, f.created_at, f.modified_at⟩
      row.file_size row.modified_at = true := by
    unfold metadata_matches
    simp [hsize, hmtime]
  constructor
  · rintro ⟨h1, h2, h3⟩
    refine ⟨{ file_id := row.id, case_id := case_id, file_name := fm.file_name,
              folder_path := fm.folder_path, absolute_path := fm.absolute_path,
              file_hash := row.file_hash, file_type := fm.file_type,
              file_size := f.size, created_at := f.created_at,
              modified_at := f.modified_at, source_directory := folder_path,
              action := .Skip }, ?_, rfl⟩
    simp only [process_file_async, get_file_metadata_async, hfs, hrow, hdel,
      hmm, if_true]
    simp [h1, h2, h3]
  · intro hcrit
    have hneeds : (decide (row.status = "reviewed") || decide (row.status = "flagged")
        || decide (row.status = "finalized")) = true := by
      rcases hcrit with h | h | h <;> simp [h]
    by_cases hh : row.file_hash = some (hash f.content)
    · refine ⟨{ file_id := row.id, case_id := case_id, file_name := fm.file_name,
                folder_path := fm.folder_path, absolute_path := fm.absolute_path,
                file_hash := some (hash f.content), file_type := fm.file_type,
                file_size := f.size, created_at := f.created_at,
                modified_at := f.modified_at, source_directory := folder_path,
                action := .Skip }, ?_⟩
      simp only [process_file_async, get_file_metadata_async,
        calculate_file_hash_secure, hfs, hrow, hdel, hmm, hneeds, hh, if_true]
      simp
    · refine ⟨{ file_id := row.id, case_id := case_id, file_name := fm.file_name,
                folder_path := fm.folder_path, absolute_path := fm.absolute_path,
                file_hash := some (hash f.content), file_type := fm.file_type,
                file_size := f.size, created_at := f.created_at,
                modified_at := f.modified_at, source_directory := folder_path,
                action := .Update row.id }, ?_⟩
      simp only [process_file_async, get_file_metadata_async,
        calculate_file_hash_secure, hfs, hrow, hdel, hmm, hneeds, if_true]
      simp [hh]

/-- Concrete catalog row for the C5 witness. -/
def c5Row : FileRow :=
  { id := "f5", case_id := "c", file_name := "a", folder_path := "",
    absolute_path := "/A", file_hash := some 42, file_type := "",
    file_size := 1, created_at := 0, modified_at := 1, updated_at := 0,
    status := "unreviewed", tags := none, source_directory := "/src",
    deleted_at := none }

/-- Concrete store for the C5 witness. -/
def c5Db : Db :=
  { files := [c5Row], notes := [], findings := [], duplicate_groups := [],
    case_sources := [] }

/-- Concrete on-disk file for the C5 witness: touched (mtime 2) but unchanged. -/
def c5File : FsFile := { content := 42, size := 1, created_at := 0, modified_at := 2 }

/-- Concrete filesystem for the C5 witness. -/
def c5Fs : FileSystem := [("/A", c5File)]

/-- Concrete walked record for the C5 witness. -/
def c5Fm : ScannerFileMetadata :=
  { file_name := "a", folder_path := "", absolute_path := "/A", file_type := "" }

/-- Witness for C5_touch_tolerance at a concrete input. -/
theorem C5_touch_tolerance_witness :
    ∃ pf : ProcessedFile,
      process_file_async id c5Fs c5Db c5Fm "c" "/src" true "new"
        = .ok (pf, 1) ∧ pf.action = .Skip :=
  C5_touch_tolerance id c5Fs c5Db c5Fm "c" "/src" "new" c5Row c5File
    (by rfl) (by rfl) (by rfl) (Or.inr (by decide)) (by rfl)

/-- Concrete catalog row for the C6 witness (critical status variant uses
c6RowCrit). -/
def c6Row : FileRow :=
  { id := "f6", case_id := "c", file_name := "a", folder_path := "",
    absolute_path := "/A", file_hash := some 42, file_type := "",
    file_size := 1, created_at := 0, modified_at := 1, updated_at := 0,
    status := "unreviewed", tags := none, source_directory := "/src",
    deleted_at := none }

/-- Concrete store for the C6 witness. -/
def c6Db : Db :=
  { files := [c6Row], notes := [], findings := [], duplicate_groups := [],
    case_sources := [] }

/-- Concrete on-disk file for the C6 witness: metadata identical to stored. -/
def c6File : FsFile := { content := 42, size := 1, created_at := 0, modified_at := 1 }

/-- Concrete filesystem for the C6 witness. -/
def c6Fs : FileSystem := [("/A", c6File)]

/-- Concrete walked record for the C6 witness. -/
def c6Fm : ScannerFileMetadata :=
  { file_name := "a", folder_path := "", absolute_path := "/A", file_type := "" }

/-- Witness for C6_fast_path at a concrete input. -/
theorem C6_fast_path_witness :
    ((c6Row.status ≠ "reviewed" ∧ c6Row.status ≠ "flagged" ∧ c6Row.status ≠ "finalized") →
      ∃ pf : ProcessedFile,
        process_file_async id c6Fs c6Db c6Fm "c" "/src" true "new"
          = .ok (pf, 0) ∧ pf.action = .Skip) ∧
    ((c6Row.status = "reviewed" ∨ c6Row.status = "flagged" ∨ c6Row.status = "finalized") →
      ∃ pf : ProcessedFile,
        process_file_async id c6Fs c6Db c6Fm "c" "/src" true "new"
          = .ok (pf, 1)) :=
  C6_fast_path id c6Fs c6Db c6Fm "c" "/src" "new" c6Row c6File
    (by rfl) (by rfl) (by rfl) (by rfl) (by rfl)

/-! ## Status machinery shared by C7 / C10 / C1 -/

/-- The status column of the first files row carrying this id (what the
SELECT status FROM files WHERE id = ? of batch_update_files reads). -/
def statusOf (db : Db) (fid : String) : Option String :=
  (db.files.find? (fun r => decide (r.id = fid))).map (fun r => r.status)

/-- The id targeted by a processed file, when its action is an update. -/
def updTarget (f : ProcessedFile) : Option String :=
  match f.action with
  | .Update t => some t
  | _ => none

@[simp] theorem applyUpdateRow_id (file : ProcessedFile) (now : Int)
    (ns : Option String) (r : FileRow) : (applyUpdateRow file now ns r).id = r.id := rfl

@[simp] theorem applyUpdateRow_tags (file : ProcessedFile) (now : Int)
    (ns : Option String) (r : FileRow) : (applyUpdateRow file now ns r).tags = r.tags := rfl

@[simp] theorem applyUpdateRow_case (file : ProcessedFile) (now : Int)
    (ns : Option String) (r : FileRow) :
    (applyUpdateRow file now ns r).case_id = r.case_id := rfl

@[simp] theorem applyUpdateRow_deleted (file : ProcessedFile) (now : Int)
    (ns : Option String) (r : FileRow) :
    (applyUpdateRow file now ns r).deleted_at = r.deleted_at := rfl

theorem find?_map_of_id (l : List FileRow) (g : FileRow → FileRow)
    (hg : ∀ r, (g r).id = r.id) (fid : String) :
    (l.map g).find? (fun r => decide (r.id = fid)) =
      (l.find? (fun r => decide (r.id = fid))).map g := by
  rw [List.find?_map]
  rw [find_congr l (q := fun r => decide (r.id = fid))
    (fun x _ => by simp [Function.comp, hg])]

theorem batch_update_cons (db : Db) (f : ProcessedFile)
    (fs : List ProcessedFile) (now : Int) :
    batch_update_files db (f :: fs) now =
      batch_update_files (apply_update_one db f now) fs now := rfl

theorem apply_update_one_of_no_target (db : Db) (file : ProcessedFile)
    (now : Int) (h : updTarget file = none) :
    apply_update_one db file now = db := by
  unfold apply_update_one
  cases ha : file.action with
  | Update t => exfalso; unfold updTarget at h; rw [ha] at h; simp at h
  | Insert => rfl
  | Skip => rfl

theorem statusOf_update_other (db : Db) (file : ProcessedFile) (now : Int)
    (fid : String) (h : updTarget file ≠ some fid) :
    statusOf (apply_update_one db file now) fid = statusOf db fid := by
  cases ha : file.action with
  | Insert => unfold apply_update_one; rw [ha]
  | Skip => unfold apply_update_one; rw [ha]
  | Update t =>
    have ht : t ≠ fid := by
      intro he
      exact h (by unfold updTarget; rw [ha, he])
    unfold apply_update_one statusOf
    rw [ha]
    rw [find?_map_of_id _ _ (fun r => by by_cases hr : r.id = t <;> simp [hr]) fid]
    cases hf : db.files.find? (fun r => decide (r.id = fid)) with
    | none => rfl
    | some r0 =>
      have hid : r0.id = fid := by
        have := List.find?_some hf
        simpa using this
      simp only [Option.map_some', Option.some.injEq]
      rw [hid, if_neg (fun hc => ht hc.symm)]

theorem statusOf_update_self (db : Db) (file : ProcessedFile) (now : Int)
    (fid s : String) (h : updTarget file = some fid)
    (hs : statusOf db fid = some s) :
    statusOf (apply_update_one db file now) fid =
      some (if s = "reviewed" ∨ s = "flagged" then "in_progress" else s) := by
  cases ha : file.action with
  | Insert => exfalso; unfold updTarget at h; rw [ha] at h; simp at h
  | Skip => exfalso; unfold updTarget at h; rw [ha] at h; simp at h
  | Update t =>
    have ht : t = fid := by
      unfold updTarget at h
      rw [ha] at h
      exact Option.some.inj h
    subst ht
    unfold statusOf at hs
    cases hf : db.files.find? (fun r => decide (r.id = t)) with
    | none => rw [hf] at hs; exact absurd hs (by simp)
    | some r0 =>
      rw [hf] at hs
      have hr0s : r0.status = s := Option.some.inj hs
      have hid : r0.id = t := by
        have := List.find?_some hf
        simpa using this
      unfold apply_update_one statusOf
      rw [ha]
      simp only [hf]
      rw [find?_map_of_id _ _ (fun r => by by_cases hr : r.id = t <;> simp [hr]) t]
      rw [hf]
      simp only [Option.map_some']
      rw [if_pos hid]
      unfold applyUpdateRow demoteStatus
      rw [hr0s]
      by_cases hrs : s = "reviewed" ∨ s = "flagged"
      · simp [hrs]
      · simp [hrs, hr0s]

theorem statusOf_batch_not_demotable (db : Db) (files : List ProcessedFile)
    (now : Int) (fid s : String) (hs : statusOf db fid = some s)
    (h1 : s ≠ "reviewed") (h2 : s ≠ "flagged") :
    statusOf (batch_update_files db files now) fid = some s := by
  induction files generalizing db with
  | nil => exact hs
  | cons f fs ih =>
    rw [batch_update_cons]
    by_cases hf : updTarget f = some fid
    · have := statusOf_update_self db f now fid s hf hs
      rw [if_neg (by rintro (h | h) <;> [exact h1 h; exact h2 h])] at this
      exact ih _ this
    · exact ih _ ((statusOf_update_other db f now fid hf) ▸ hs)

/-! ## C7: status demotion on update -/

/-- C7: when the update batch is applied and the targeted entry's current
status is reviewed or flagged, the batch writer sets its status to
in_progress as part of the same batch. -/
theorem C7_update_demotes_reviewed_flagged (db : Db) (files : List ProcessedFile)
    (now : Int) (fid s : String) (hs : statusOf db fid = some s)
    (hcrit : s = "reviewed" ∨ s = "flagged")
    (hmem : ∃ f ∈ files, f.action = .Update fid) :
    statusOf (batch_update_files db files now) fid = some "in_progress" := by
  induction files generalizing db s with
  | nil => simp at hmem
  | cons f fs ih =>
    rw [batch_update_cons]
    by_cases hf : updTarget f = some fid
    · have := statusOf_update_self db f now fid s hf hs
      rw [if_pos hcrit] at this
      exact statusOf_batch_not_demotable _ fs now fid _ this
        (by decide) (by decide)
    · have hpres := statusOf_update_other db f now fid hf
      rcases hmem with ⟨f0, hf0, ha0⟩
      rcases List.mem_cons.mp hf0 with rfl | hf0'
      · exact absurd (by unfold updTarget; rw [ha0]) hf
      · exact ih _ s (hpres ▸ hs) hcrit ⟨f0, hf0', ha0⟩

/-- Concrete store for the C7 witness. -/
def c7Row : FileRow :=
  { id := "f7", case_id := "c", file_name := "a", folder_path := "",
    absolute_path := "/A", file_hash := some 42, file_type := "",
    file_size := 1, created_at := 0, modified_at := 1, updated_at := 0,
    status := "flagged", tags := none, source_directory := "/src",
    deleted_at := none }

/-- Concrete store for the C7 witness. -/
def c7Db : Db :=
  { files := [c7Row], notes := [], findings := [], duplicate_groups := [],
    case_sources := [] }

/-- Concrete update batch entry for the C7 witness. -/
def c7Upd : ProcessedFile :=
  { file_id := "f7", case_id := "c", file_name := "a", folder_path := "",
    absolute_path := "/A", file_hash := some 43, file_type := "",
    file_size := 2, created_at := 0, modified_at := 2,
    source_directory := "/src", action := .Update "f7" }

/-- Witness for C7_update_demotes_reviewed_flagged at a concrete input. -/
theorem C7_update_demotes_witness :
    statusOf (batch_update_files c7Db [c7Upd] 9) "f7" = some "in_progress" :=
  C7_update_demotes_reviewed_flagged c7Db [c7Upd] 9 "f7" "flagged"
    (by rfl) (Or.inr rfl) ⟨c7Upd, by simp, rfl⟩

/-! ## C10: frame effect of the update batch -/

theorem batch_update_notes (db : Db) (files : List ProcessedFile) (now : Int) :
    (batch_update_files db files now).notes = db.notes := by
  induction files generalizing db with
  | nil => rfl
  | cons f fs ih =>
    rw [batch_update_cons, ih]
    unfold apply_update_one
    cases f.action <;> rfl

theorem batch_update_findings (db : Db) (files : List ProcessedFile) (now : Int) :
    (batch_update_files db files now).findings = db.findings := by
  induction files generalizing db with
  | nil => rfl
  | cons f fs ih =>
    rw [batch_update_cons, ih]
    unfold apply_update_one
    cases f.action <;> rfl

theorem batch_update_tags (db : Db) (files : List ProcessedFile) (now : Int) :
    (batch_update_files db files now).files.map (fun r => r.tags) =
      db.files.map (fun r => r.tags) := by
  induction files generalizing db with
  | nil => rfl
  | cons f fs ih =>
    rw [batch_update_cons, ih]
    unfold apply_update_one
    cases f.action with
    | Insert => rfl
    | Skip => rfl
    | Update t =>
      simp only [List.map_map]
      exact List.map_congr_left (fun r _ => by
        by_cases hr : r.id = t <;> simp [Function.comp, hr])

theorem batch_update_ids (db : Db) (files : List ProcessedFile) (now : Int) :
    (batch_update_files db files now).files.map (fun r => r.id) =
      db.files.map (fun r => r.id) := by
  induction files generalizing db with
  | nil => rfl
  | cons f fs ih =>
    rw [batch_update_cons, ih]
    unfold apply_update_one
    cases f.action with
    | Insert => rfl
    | Skip => rfl
    | Update t =>
      simp only [List.map_map]
      exact List.map_congr_left (fun r _ => by
        by_cases hr : r.id = t <;> simp [Function.comp, hr])

/-- C10: the update batch never demotes a finalized entry (only reviewed and
flagged are demoted), and the fields it does not write are untouched: every
row keeps its tags (and identity), and the annotation tables (notes,
findings) are unchanged. -/
theorem C10_update_frame (db : Db) (files : List ProcessedFile) (now : Int)
    (fid : String) :
    (statusOf db fid = some "finalized" →
      statusOf (batch_update_files db files now) fid = some "finalized") ∧
    (batch_update_files db files now).files.map (fun r => r.tags) =
      db.files.map (fun r => r.tags) ∧
    (batch_update_files db files now).files.map (fun r => r.id) =
      db.files.map (fun r => r.id) ∧
    (batch_update_files db files now).notes = db.notes ∧
    (batch_update_files db files now).findings = db.findings :=
  ⟨fun hs => statusOf_batch_not_demotable db files now fid _ hs (by decide) (by decide),
   batch_update_tags db files now, batch_update_ids db files now,
   batch_update_notes db files now, batch_update_findings db files now⟩

/-- Concrete finalized row for the C10 witness. -/
def c10Row : FileRow :=
  { id := "fX", case_id := "c", file_name := "a", folder_path := "",
    absolute_path := "/A", file_hash := some 42, file_type := "",
    file_size := 1, created_at := 0, modified_at := 1, updated_at := 0,
    status := "finalized", tags := some "important", source_directory := "/src",
    deleted_at := none }

/-- Concrete store for the C10 witness. -/
def c10Db : Db :=
  { files := [c10Row], notes := [{ id := "n1", case_id := "c", file_id := some "fX" }],
    findings := [], duplicate_groups := [], case_sources := [] }

/-- Concrete update batch entry for the C10 witness. -/
def c10Upd : ProcessedFile :=
  { file_id := "fX", case_id := "c", file_name := "a", folder_path := "",
    absolute_path := "/A", file_hash := some 43, file_type := "",
    file_size := 2, created_at := 0, modified_at := 2,
    source_directory := "/src", action := .Update "fX" }

/-- Witness for C10_update_frame at a concrete input. -/
theorem C10_update_frame_witness :
    (statusOf c10Db "fX" = some "finalized" →
      statusOf (batch_update_files c10Db [c10Upd] 9) "fX" = some "finalized") ∧
    (batch_update_files c10Db [c10Upd] 9).files.map (fun r => r.tags) =
      c10Db.files.map (fun r => r.tags) ∧
    (batch_update_files c10Db [c10Upd] 9).files.map (fun r => r.id) =
      c10Db.files.map (fun r => r.id) ∧
    (batch_update_files c10Db [c10Upd] 9).notes = c10Db.notes ∧
    (batch_update_files c10Db [c10Upd] 9).findings = c10Db.findings :=
  C10_update_frame c10Db [c10Upd] 9 "fX"

/-! ## C9: chunked cleanup correctness -/

theorem chunksOf_flatten {α : Type} (l : List α) : (chunksOf l).flatten = l := by
  induction l using chunksOf.induct with
  | case1 => simp [chunksOf]
  | case2 x xs ih =>
    rw [chunksOf]
    simp only [List.flatten_cons, ih, List.take_append_drop]

theorem filter_or_disjoint (F : List FileRow) (A B : List String)
    (hd : ∀ x, x ∈ A → x ∉ B) :
    (F.filter (fun r => decide (r.id ∈ A ++ B))).length =
      (F.filter (fun r => decide (r.id ∈ A))).length +
      (F.filter (fun r => decide (r.id ∈ B))).length := by
  induction F with
  | nil => rfl
  | cons r F' ih =>
    simp only [List.filter_cons]
    by_cases hA : r.id ∈ A
    · have hB : r.id ∉ B := hd _ hA
      rw [show (decide (r.id ∈ A ++ B)) = true by simp [List.mem_append, hA],
        show (decide (r.id ∈ A)) = true by simp [hA],
        show (decide (r.id ∈ B)) = false by simp [hB]]
      rw [if_pos rfl, if_pos rfl, if_neg Bool.false_ne_true]
      simp only [List.length_cons, ih]
      omega
    · by_cases hB : r.id ∈ B
      · rw [show (decide (r.id ∈ A ++ B)) = true by simp [List.mem_append, hB],
          show (decide (r.id ∈ A)) = false by simp [hA],
          show (decide (r.id ∈ B)) = true by simp [hB]]
        rw [if_pos rfl, if_neg Bool.false_ne_true, if_pos rfl]
        simp only [List.length_cons, ih]
        omega
      · rw [show (decide (r.id ∈ A ++ B)) = false by simp [List.mem_append, hA, hB],
          show (decide (r.id ∈ A)) = false by simp [hA],
          show (decide (r.id ∈ B)) = false by simp [hB]]
        rw [if_neg Bool.false_ne_true, if_neg Bool.false_ne_true,
          if_neg Bool.false_ne_true]
        exact ih

theorem softDelete_foldl_db (t : Int) (cs : List (List String)) (d : Db)
    (n : Nat) :
    (cs.foldl (softDeleteChunk t) (d, n)).1 =
      { d with files := d.files.map (fun r =>
          if r.id ∈ cs.flatten then { r with deleted_at := some t } else r) } := by
  induction cs generalizing d n with
  | nil =>
    simp only [List.foldl_nil, List.flatten_nil]
    have h1 : d.files.map (fun r =>
        if r.id ∈ ([] : List String) then { r with deleted_at := some t } else r)
        = d.files :=
      (List.map_congr_left (fun r _ => by simp)).trans (List.map_id _)
    rw [h1]
  | cons c cs2 ih =>
    rw [List.foldl_cons]
    show (cs2.foldl (softDeleteChunk t)
      ({ d with files := d.files.map (fun r =>
          if r.id ∈ c then { r with deleted_at := some t } else r) },
       n + (d.files.filter (fun r => decide (r.id ∈ c))).length)).1 = _
    rw [ih]
    simp only [List.flatten_cons]
    show ({ d with files := _ } : Db) = { d with files := _ }
    refine congrArg (fun fl => ({ d with files := fl } : Db)) ?_
    rw [List.map_map]
    refine List.map_congr_left (fun r _ => ?_)
    by_cases h1 : r.id ∈ c
    · simp [Function.comp, h1, List.mem_append]
    · by_cases h2 : r.id ∈ cs2.flatten
      · simp [Function.comp, h1, h2, List.mem_append]
      · simp [Function.comp, h1, h2, List.mem_append]

theorem softDelete_foldl_spec (t : Int) (cs : List (List String)) (d : Db)
    (n : Nat) (hnd : cs.flatten.Nodup) :
    cs.foldl (softDeleteChunk t) (d, n) =
      ({ d with files := d.files.map (fun r =>
          if r.id ∈ cs.flatten then { r with deleted_at := some t } else r) },
       n + (d.files.filter (fun r => decide (r.id ∈ cs.flatten))).length) := by
  induction cs generalizing d n with
  | nil =>
    simp only [List.foldl_nil, List.flatten_nil]
    have h1 : d.files.map (fun r =>
        if r.id ∈ ([] : List String) then { r with deleted_at := some t } else r)
        = d.files := by
      refine (List.map_congr_left (fun r _ => by simp)).trans (List.map_id _)
    have h2 : d.files.filter (fun r => decide (r.id ∈ ([] : List String))) = [] := by
      simp
    rw [h1, h2]
    rfl
  | cons c cs' ih =>
    have hnd2 := List.nodup_append.mp (by simpa using hnd)
    rw [List.foldl_cons]
    show cs'.foldl (softDeleteChunk t)
      ({ d with files := d.files.map (fun r =>
          if r.id ∈ c then { r with deleted_at := some t } else r) },
       n + (d.files.filter (fun r => decide (r.id ∈ c))).length) = _
    rw [ih _ _ hnd2.2.1]
    simp only [List.flatten_cons, Prod.mk.injEq]
    constructor
    · show ({ d with files := _ } : Db) = { d with files := _ }
      refine congrArg (fun fl => ({ d with files := fl } : Db)) ?_
      rw [List.map_map]
      refine List.map_congr_left (fun r _ => ?_)
      by_cases h1 : r.id ∈ c
      · simp [Function.comp, h1, List.mem_append]
      · by_cases h2 : r.id ∈ cs'.flatten
        · simp [Function.comp, h1, h2, List.mem_append]
        · simp [Function.comp, h1, h2, List.mem_append]
    · have hcnt : ((d.files.map (fun r =>
          if r.id ∈ c then { r with deleted_at := some t } else r)).filter
            (fun r => decide (r.id ∈ cs'.flatten))).length =
          (d.files.filter (fun r => decide (r.id ∈ cs'.flatten))).length := by
        rw [List.filter_map, List.length_map]
        congr 1
        refine List.filter_congr (fun r _ => ?_)
        by_cases h1 : r.id ∈ c <;> simp [Function.comp, h1]
      rw [hcnt, filter_or_disjoint d.files c cs'.flatten
        (fun x hx hxB => hnd2.2.2 hx hxB)]
      omega

/-- C9: for every list of deletable ids (of any size, in particular larger
than the 900-per-statement chunk bound), batch soft-deletion marks deleted_at
on exactly the rows whose id lies in the list, leaves every other row
untouched, removes no row (rows are mapped, never dropped), and reports the
number of matched rows. -/
theorem C9_chunked_soft_delete (validId : String → Bool) (db : Db)
    (file_ids : List String) (t : Int)
    (hvalid : ∀ fid ∈ file_ids, validId fid = true)
    (hnd : file_ids.Nodup) :
    batch_soft_delete_files validId db file_ids t =
      .ok ({ db with files := db.files.map (fun r =>
              if r.id ∈ file_ids then { r with deleted_at := some t } else r) },
           (db.files.filter (fun r => decide (r.id ∈ file_ids))).length) := by
  by_cases he : file_ids.isEmpty
  · have hnil : file_ids = [] := List.isEmpty_iff.mp he
    subst hnil
    unfold batch_soft_delete_files
    rw [if_pos (show ([] : List String).isEmpty = true from rfl)]
    have h1 : db.files.map (fun r =>
        if r.id ∈ ([] : List String) then { r with deleted_at := some t } else r)
        = db.files :=
      (List.map_congr_left (fun r _ => by simp)).trans (List.map_id _)
    have h2 : db.files.filter (fun r => decide (r.id ∈ ([] : List String))) = [] := by
      simp
    rw [h1, h2]
    rfl
  · unfold batch_soft_delete_files
    rw [if_neg he]
    have hval : validate_file_ids validId file_ids = .ok () := by
      unfold validate_file_ids
      rw [if_pos (List.all_eq_true.mpr (fun x hx => hvalid x hx))]
    rw [hval]
    have hflat : (chunksOf file_ids).flatten = file_ids := chunksOf_flatten file_ids
    rw [softDelete_foldl_spec t (chunksOf file_ids) db 0 (by rw [hflat]; exact hnd)]
    rw [hflat]
    simp

/-- Rows for the C9 witness. -/
def c9RowA : FileRow :=
  { id := "a", case_id := "c", file_name := "a", folder_path := "",
    absolute_path := "/A", file_hash := none, file_type := "",
    file_size := 1, created_at := 0, modified_at := 1, updated_at := 0,
    status := "unreviewed", tags := none, source_directory := "/src",
    deleted_at := none }

/-- Second row for the C9 witness (not deleted by the call). -/
def c9RowB : FileRow :=
  { c9RowA with id := "b", absolute_path := "/B" }

/-- Store for the C9 witness. -/
def c9Db : Db :=
  { files := [c9RowA, c9RowB], notes := [], findings := [],
    duplicate_groups := [], case_sources := [] }

/-- Witness for C9_chunked_soft_delete at a concrete input. -/
theorem C9_chunked_soft_delete_witness :
    batch_soft_delete_files (fun _ => true) c9Db ["a"] 7 =
      .ok ({ c9Db with files := c9Db.files.map (fun r =>
              if r.id ∈ ["a"] then { r with deleted_at := some 7 } else r) },
           (c9Db.files.filter (fun r => decide (r.id ∈ ["a"]))).length) :=
  C9_chunked_soft_delete (fun _ => true) c9Db ["a"] 7
    (fun _ _ => rfl) (by simp)

/-! ## C3: protected-file safety of orphan cleanup -/

theorem mem_hsInsert (s : List String) (x y : String) :
    y ∈ hsInsert s x ↔ y ∈ s ∨ y = x := by
  unfold hsInsert
  by_cases h : x ∈ s
  · rw [if_pos h]
    exact ⟨Or.inl, fun hc => hc.elim id (fun he => he ▸ h)⟩
  · rw [if_neg h]
    simp

theorem mem_hsInsertAll (s xs : List String) (y : String) :
    y ∈ hsInsertAll s xs ↔ y ∈ s ∨ y ∈ xs := by
  induction xs generalizing s with
  | nil => simp [hsInsertAll]
  | cons a t ih =>
    show y ∈ hsInsertAll (hsInsert s a) t ↔ _
    rw [ih, mem_hsInsert]
    simp [or_assoc]

theorem mem_sqlDistinct (l : List String) (y : String) :
    y ∈ sqlDistinct l ↔ y ∈ l := by
  unfold sqlDistinct
  rw [show l.foldl hsInsert [] = hsInsertAll [] l from rfl, mem_hsInsertAll]
  simp

theorem mem_linked_foldl_mono (file_ids : List String) (linked : List String)
    (acc : List String) (y : String) (hy : y ∈ acc) :
    y ∈ linked.foldl (fun a x => if x ∈ file_ids then hsInsert a x else a) acc := by
  induction linked generalizing acc with
  | nil => exact hy
  | cons b t ih =>
    rw [List.foldl_cons]
    refine ih _ ?_
    show y ∈ (if b ∈ file_ids then hsInsert acc b else acc)
    by_cases hb : b ∈ file_ids
    · rw [if_pos hb, mem_hsInsert]; exact Or.inl hy
    · rw [if_neg hb]; exact hy

theorem mem_linked_foldl_of_mem (file_ids : List String) (linked : List String)
    (acc : List String) (x : String) (hx : x ∈ linked) (hxf : x ∈ file_ids) :
    x ∈ linked.foldl (fun a x => if x ∈ file_ids then hsInsert a x else a) acc := by
  induction linked generalizing acc with
  | nil => simp at hx
  | cons b t ih =>
    rw [List.foldl_cons]
    rcases List.mem_cons.mp hx with rfl | hx2
    · refine mem_linked_foldl_mono _ _ _ _ ?_
      show x ∈ (if x ∈ file_ids then hsInsert acc x else acc)
      rw [if_pos hxf, mem_hsInsert]
      exact Or.inr rfl
    · exact ih _ hx2

theorem mem_findingStep_mono (case_id : String) (file_ids : List String)
    (acc : List String) (fr : FindingRow) (y : String) (hy : y ∈ acc) :
    y ∈ findingStep case_id file_ids acc fr := by
  unfold findingStep
  by_cases hc : fr.case_id = case_id
  · rw [if_pos hc]
    cases fr.linked_files with
    | none => exact hy
    | some linked => exact mem_linked_foldl_mono _ _ _ _ hy
  · rw [if_neg hc]; exact hy

theorem mem_findingFold_mono (case_id : String) (file_ids : List String)
    (L : List FindingRow) (s : List String) (y : String) (hy : y ∈ s) :
    y ∈ L.foldl (findingStep case_id file_ids) s := by
  induction L generalizing s with
  | nil => exact hy
  | cons fr L2 ih => exact ih _ (mem_findingStep_mono _ _ _ _ _ hy)

theorem mem_findingFold_of_linked (case_id : String) (file_ids : List String)
    (L : List FindingRow) (s : List String) (fr : FindingRow) (hfr : fr ∈ L)
    (hc : fr.case_id = case_id) (ls : List String)
    (hls : fr.linked_files = some ls) (x : String) (hx : x ∈ ls)
    (hxf : x ∈ file_ids) :
    x ∈ L.foldl (findingStep case_id file_ids) s := by
  induction L generalizing s with
  | nil => simp at hfr
  | cons g L2 ih =>
    rw [List.foldl_cons]
    rcases List.mem_cons.mp hfr with rfl | hfr2
    · refine mem_findingFold_mono _ _ L2 _ _ ?_
      unfold findingStep
      rw [if_pos hc, hls]
      exact mem_linked_foldl_of_mem _ _ _ _ hx hxf
    · exact ih _ hfr2

theorem mem_foldl_append {α : Type} (g : List String → List α)
    (cs : List (List String)) (init : List α) (y : α)
    (h : y ∈ init ∨ ∃ c ∈ cs, y ∈ g c) :
    y ∈ cs.foldl (fun acc c => acc ++ g c) init := by
  induction cs generalizing init with
  | nil => simpa using h
  | cons c cs2 ih =>
    rw [List.foldl_cons]
    refine ih _ ?_
    rcases h with hy | ⟨c2, hc2, hy⟩
    · exact Or.inl (List.mem_append.mpr (Or.inl hy))
    · rcases List.mem_cons.mp hc2 with rfl | hc3
      · exact Or.inl (List.mem_append.mpr (Or.inr hy))
      · exact Or.inr ⟨c2, hc3, hy⟩

theorem mem_missing_ids (db : Db) (case_id source_directory : String)
    (scanned : List String) (x : String)
    (hx : x ∈ detect_missing_files db case_id source_directory scanned) :
    ∃ row ∈ db.files, row.id = x := by
  unfold detect_missing_files at hx
  rcases List.mem_map.mp hx with ⟨row, hrow, heq⟩
  exact ⟨row, (List.mem_filter.mp (List.mem_filter.mp hrow).1).1, heq⟩

/-- C3: a catalog entry of the cleaned case and source that is missing from
the walked path set but carries user data (non-default status, an attached
note of the case, or a finding reference of the case) is counted as
protected and survives Orphan Cleanup unchanged: its row (deleted_at = NULL
included) is still present afterwards. -/
theorem C3_protected_never_deleted (validId : String → Bool) (db : Db)
    (case_id source_directory : String) (scanned : List String) (t : Int)
    (hcase : validId case_id = true)
    (hsrc : (source_directory.isEmpty || decide (source_directory.length > 4096)) = false)
    (hvalidIds : ∀ row ∈ db.files, validId row.id = true)
    (r : FileRow) (hr : r ∈ db.files) (hrc : r.case_id = case_id)
    (hrs : r.source_directory = source_directory) (hrd : r.deleted_at = none)
    (hmiss : r.absolute_path ∉ scanned)
    (hprot : r.status ≠ "unreviewed" ∨
      (∃ n ∈ db.notes, n.case_id = case_id ∧ n.file_id = some r.id) ∨
      (∃ fd ∈ db.findings, fd.case_id = case_id ∧
        ∃ ls, fd.linked_files = some ls ∧ r.id ∈ ls)) :
    ∃ db2 res, cleanup_orphaned_files validId db case_id source_directory scanned t
      = .ok (db2, res) ∧ r ∈ db2.files ∧ 1 ≤ res.files_protected := by
  set missing := detect_missing_files db case_id source_directory scanned with hmissdef
  have hmem : r.id ∈ missing := by
    rw [hmissdef]
    unfold detect_missing_files
    refine List.mem_map.mpr ⟨r, List.mem_filter.mpr ⟨List.mem_filter.mpr ⟨hr, ?_⟩, ?_⟩, rfl⟩
    · simp [hrc, hrs, hrd]
    · simp [hmiss]
  have hvalidMissing : ∀ x ∈ missing, validId x = true := by
    intro x hx
    rcases mem_missing_ids db case_id source_directory scanned x hx with ⟨row, hrow, hid⟩
    exact hid ▸ hvalidIds row hrow
  have hne : missing.isEmpty = false := by
    cases he : missing with
    | nil => rw [he] at hmem; simp at hmem
    | cons a l => rfl
  -- the protection result contains this id
  have hval : validate_file_ids validId missing = .ok () := by
    unfold validate_file_ids
    rw [if_pos (List.all_eq_true.mpr hvalidMissing)]
  have hPeq : batch_check_files_for_protection validId db case_id missing
      = .ok (findingProtected db case_id missing
          (hsInsertAll (hsInsertAll [] (check_file_status_chunked db case_id missing))
            (check_notes_chunked db case_id missing))) := by
    unfold batch_check_files_for_protection
    rw [if_neg (by rw [hne]; exact Bool.false_ne_true)]
    rw [hval]
    rw [if_neg (by rw [hcase]; exact Bool.false_ne_true)]
  have hprotpair : ∃ P, batch_check_files_for_protection validId db case_id missing
      = .ok P ∧ r.id ∈ P := by
    refine ⟨_, hPeq, ?_⟩
    unfold findingProtected
    rcases hprot with hst | ⟨n, hn, hnc, hnf⟩ | ⟨fd, hfd, hfc, ls, hls, hmemls⟩
    · -- non-default status
      refine mem_findingFold_mono _ _ _ _ _ ?_
      rw [mem_hsInsertAll]
      refine Or.inl ?_
      rw [mem_hsInsertAll]
      refine Or.inr ?_
      rcases List.mem_flatten.mp ((chunksOf_flatten missing) ▸ hmem) with ⟨c, hc, hcm⟩
      unfold check_file_status_chunked
      refine mem_foldl_append _ _ _ _ (Or.inr ⟨c, hc, ?_⟩)
      exact List.mem_map.mpr ⟨r, List.mem_filter.mpr ⟨hr, by simp [hrc, hcm, hst]⟩, rfl⟩
    · -- attached note
      refine mem_findingFold_mono _ _ _ _ _ ?_
      rw [mem_hsInsertAll]
      refine Or.inr ?_
      rcases List.mem_flatten.mp ((chunksOf_flatten missing) ▸ hmem) with ⟨c, hc, hcm⟩
      unfold check_notes_chunked
      refine mem_foldl_append _ _ _ _ (Or.inr ⟨c, hc, ?_⟩)
      rw [mem_sqlDistinct]
      refine List.mem_filter.mpr ⟨?_, by simp [hcm]⟩
      exact List.mem_filterMap.mpr ⟨n, hn, by rw [if_pos hnc]; exact hnf⟩
    · -- finding reference
      exact mem_findingFold_of_linked _ _ _ _ fd hfd hfc ls hls r.id hmemls hmem
  rcases hprotpair with ⟨P, hP, hrP⟩
  have hnotdel : r.id ∉ missing.filter (fun fid => ! decide (fid ∈ P)) := by
    intro hc
    have := (List.mem_filter.mp hc).2
    simp [hrP] at this
  set deletable := missing.filter (fun fid => ! decide (fid ∈ P)) with hdel
  have hlen : 1 ≤ P.length :=
    Nat.succ_le_of_lt (List.length_pos.mpr (List.ne_nil_of_mem hrP))
  by_cases hde : deletable.isEmpty
  · have heq : cleanup_orphaned_files validId db case_id source_directory scanned t
        = .ok (db, ⟨0, P.length⟩) := by
      unfold cleanup_orphaned_files
      rw [if_neg (by rw [hcase]; exact Bool.false_ne_true)]
      rw [if_neg (by rw [hsrc]; exact Bool.false_ne_true)]
      rw [← hmissdef]
      rw [if_neg (by rw [hne]; exact Bool.false_ne_true)]
      rw [hP]
      simp only [← hdel, hde, Bool.not_true, Bool.false_eq_true, if_false]
    exact ⟨db, ⟨0, P.length⟩, heq, hr, hlen⟩
  · have hvd : validate_file_ids validId deletable = .ok () := by
      unfold validate_file_ids
      refine if_pos (List.all_eq_true.mpr (fun x hx => ?_))
      exact hvalidMissing x (List.mem_filter.mp hx).1
    have hsd : batch_soft_delete_files validId db deletable t
        = .ok ({ db with files := db.files.map (fun row =>
            if row.id ∈ deletable then { row with deleted_at := some t } else row) },
          ((chunksOf deletable).foldl (softDeleteChunk t) (db, 0)).2) := by
      unfold batch_soft_delete_files
      rw [if_neg hde, hvd]
      rw [show (chunksOf deletable).foldl (softDeleteChunk t) (db, 0)
          = (((chunksOf deletable).foldl (softDeleteChunk t) (db, 0)).1,
             ((chunksOf deletable).foldl (softDeleteChunk t) (db, 0)).2) from
        (Prod.mk.eta).symm]
      rw [softDelete_foldl_db t (chunksOf deletable) db 0]
      rw [chunksOf_flatten]
    have heq : cleanup_orphaned_files validId db case_id source_directory scanned t
        = .ok ({ db with files := db.files.map (fun row =>
            if row.id ∈ deletable then { row with deleted_at := some t } else row) },
          ⟨((chunksOf deletable).foldl (softDeleteChunk t) (db, 0)).2, P.length⟩) := by
      unfold cleanup_orphaned_files
      rw [if_neg (by rw [hcase]; exact Bool.false_ne_true)]
      rw [if_neg (by rw [hsrc]; exact Bool.false_ne_true)]
      rw [← hmissdef]
      rw [if_neg (by rw [hne]; exact Bool.false_ne_true)]
      rw [hP]
      simp only [← hdel, hde, Bool.not_false, if_true, hsd]
    refine ⟨_, _, heq, ?_, hlen⟩
    exact List.mem_map.mpr ⟨r, hr, by rw [if_neg hnotdel]⟩


/-- Concrete orphaned-but-annotated row for the C3 witness. -/
def c3Row : FileRow :=
  { id := "g1", case_id := "c", file_name := "g", folder_path := "",
    absolute_path := "/G", file_hash := none, file_type := "",
    file_size := 1, created_at := 0, modified_at := 1, updated_at := 0,
    status := "unreviewed", tags := none, source_directory := "/src",
    deleted_at := none }

/-- Concrete note attached to c3Row. -/
def c3Note : NoteRow := { id := "n1", case_id := "c", file_id := some "g1" }

/-- Concrete store for the C3 witness. -/
def c3Db : Db :=
  { files := [c3Row], notes := [c3Note], findings := [],
    duplicate_groups := [], case_sources := [] }

/-- Witness for C3_protected_never_deleted at a concrete input. -/
theorem C3_protected_never_deleted_witness :
    ∃ db2 res, cleanup_orphaned_files (fun _ => true) c3Db "c" "/src" [] 5
      = .ok (db2, res) ∧ c3Row ∈ db2.files ∧ 1 ≤ res.files_protected :=
  C3_protected_never_deleted (fun _ => true) c3Db "c" "/src" [] 5
    rfl (by decide) (fun _ _ => rfl) c3Row (by simp [c3Db]) rfl rfl rfl
    (by simp) (Or.inr (Or.inl ⟨c3Note, by simp [c3Db], rfl, rfl⟩))


/-! ## C8: duplicate-group primary uniqueness and append-only membership -/

/-- Within every duplicate group, at most one member carries the is-primary
flag. -/
def atMostOnePrimary (l : List DupRow) : Prop :=
  ∀ g, ((l.filter (fun d => decide (d.group_id = g) && d.is_primary)).length ≤ 1)

theorem not_mem_existingDuplicateIds (db : Db) (case_id : String) (h : Nat)
    (fid : String) : fid ∉ existingDuplicateIds db case_id h fid := by
  unfold existingDuplicateIds
  intro hmem
  have h2 := List.take_subset 100 _ hmem
  rw [mem_sqlDistinct] at h2
  rcases List.mem_map.mp h2 with ⟨r, hr, hid⟩
  have hp := (List.mem_filter.mp hr).2
  rw [Bool.and_eq_true, Bool.and_eq_true] at hp
  have := of_decide_eq_true hp.1.1
  exact this.2.2 hid

theorem createGroupRows_group (h : Nat) (now : Int) (E : List String) :
    ∀ row ∈ createGroupRows h now E, row.group_id = h := by
  cases E with
  | nil => simp [createGroupRows]
  | cons x xs =>
    rintro row hrow
    rcases List.mem_cons.mp hrow with rfl | hmem
    · rfl
    · rcases List.mem_map.mp hmem with ⟨fid, _, rfl⟩
      rfl

theorem createGroupRows_file_ids (h : Nat) (now : Int) (E : List String) :
    ∀ row ∈ createGroupRows h now E, row.file_id ∈ E := by
  cases E with
  | nil => simp [createGroupRows]
  | cons x xs =>
    rintro row hrow
    rcases List.mem_cons.mp hrow with rfl | hmem
    · exact List.mem_cons_self x xs
    · rcases List.mem_map.mp hmem with ⟨fid, hfid, rfl⟩
      exact List.mem_cons_of_mem x hfid

theorem createGroupRows_primary_count (h : Nat) (now : Int) (E : List String)
    (g : Nat) :
    ((createGroupRows h now E).filter
      (fun d => decide (d.group_id = g) && d.is_primary)).length ≤ 1 := by
  cases E with
  | nil => simp [createGroupRows]
  | cons x xs =>
    have htail : ((xs.map (fun fid => (⟨h, fid, false, now⟩ : DupRow))).filter
        (fun d => decide (d.group_id = g) && d.is_primary)) = [] := by
      rw [List.filter_eq_nil_iff]
      rintro d hd
      rcases List.mem_map.mp hd with ⟨fid, _, rfl⟩
      simp
    show (((⟨h, x, true, now⟩ : DupRow) :: xs.map
        (fun fid => (⟨h, fid, false, now⟩ : DupRow))).filter
        (fun d => decide (d.group_id = g) && d.is_primary)).length ≤ 1
    rw [List.filter_cons, htail]
    split <;> simp

/-- The per-step facts about batch_create_duplicate_groups: the
duplicate_groups table only grows by a tail in which the row inserted for the
current file is non-primary, primary rows only belong to groups that did not
exist before the step, and each group gains at most one primary row. -/
theorem create_dup_one_spec (db : Db) (case_id : String) (file : ProcessedFile)
    (now : Int) :
    ∃ tail,
      (create_dup_groups_one db case_id file now).1.duplicate_groups
        = db.duplicate_groups ++ tail ∧
      (∀ row ∈ tail, row.file_id = file.file_id → row.is_primary = false) ∧
      (∀ row ∈ tail, row.is_primary = true →
        ∀ d ∈ db.duplicate_groups, d.group_id ≠ row.group_id) ∧
      (∀ g, ((tail.filter (fun d => decide (d.group_id = g) && d.is_primary)).length ≤ 1)) := by
  unfold create_dup_groups_one
  cases hh : file.file_hash with
  | none => exact ⟨[], by simp, by simp, by simp, by simp⟩
  | some h =>
    by_cases hE : (existingDuplicateIds db case_id h file.file_id).isEmpty
    · refine ⟨[], ?_, by simp, by simp, by simp⟩
      simp [hE]
    · simp only [hE, Bool.false_eq_true, if_false]
      by_cases hex : db.duplicate_groups.any (fun d => decide (d.group_id = h)) = true
      · -- the group already exists: at most the OR IGNORE row is appended
        simp only [hex, if_true]
        by_cases hig : db.duplicate_groups.any
            (fun d => decide (d.group_id = h ∧ d.file_id = file.file_id)) = true
        · refine ⟨[], ?_, by simp, by simp, by simp⟩
          rw [if_pos hig]
          simp
        · refine ⟨[⟨h, file.file_id, false, now⟩], ?_, ?_, ?_, ?_⟩
          · rw [if_neg hig]
          · rintro row hrow _
            rcases List.mem_singleton.mp hrow with rfl
            rfl
          · rintro row hrow hp
            rcases List.mem_singleton.mp hrow with rfl
            simp at hp
          · intro g
            have : (([⟨h, file.file_id, false, now⟩] : List DupRow).filter
                (fun d => decide (d.group_id = g) && d.is_primary)) = [] := by
              simp
            rw [this]
            simp
      · -- fresh group: creation rows (first primary) plus the OR IGNORE row
        simp only [hex, Bool.false_eq_true, if_false]
        have hfresh : ∀ d ∈ db.duplicate_groups, d.group_id ≠ h := by
          intro d hd he
          exact hex (List.any_eq_true.mpr ⟨d, hd, by simp [he]⟩)
        set E := existingDuplicateIds db case_id h file.file_id with hEdef
        have hEfid : file.file_id ∉ E := not_mem_existingDuplicateIds db case_id h file.file_id
        by_cases hig : (db.duplicate_groups ++ createGroupRows h now E).any
            (fun d => decide (d.group_id = h ∧ d.file_id = file.file_id)) = true
        · refine ⟨createGroupRows h now E, ?_, ?_, ?_, ?_⟩
          · rw [if_pos hig]
          · intro row hrow hfid
            exact absurd (hfid ▸ createGroupRows_file_ids h now E row hrow) hEfid
          · intro row hrow _ d hd
            rw [createGroupRows_group h now E row hrow]
            exact hfresh d hd
          · exact createGroupRows_primary_count h now E
        · refine ⟨createGroupRows h now E ++ [⟨h, file.file_id, false, now⟩], ?_, ?_, ?_, ?_⟩
          · rw [if_neg hig, List.append_assoc]
          · intro row hrow hfid
            rcases List.mem_append.mp hrow with hm | hm
            · exact absurd (hfid ▸ createGroupRows_file_ids h now E row hm) hEfid
            · rcases List.mem_singleton.mp hm with rfl
              rfl
          · intro row hrow hp d hd
            rcases List.mem_append.mp hrow with hm | hm
            · rw [createGroupRows_group h now E row hm]
              exact hfresh d hd
            · rcases List.mem_singleton.mp hm with rfl
              simp at hp
          · intro g
            rw [List.filter_append]
            have hsingle : (([⟨h, file.file_id, false, now⟩] : List DupRow).filter
                (fun d => decide (d.group_id = g) && d.is_primary)) = [] := by
              simp
            rw [hsingle, List.append_nil]
            exact createGroupRows_primary_count h now E g


theorem batch_dup_fst (db : Db) (case_id : String) (files : List ProcessedFile)
    (now : Int) :
    (batch_create_duplicate_groups db case_id files now).1 =
      files.foldl (fun d f => (create_dup_groups_one d case_id f now).1) db := by
  unfold batch_create_duplicate_groups
  suffices h : ∀ (n : Nat) (d : Db),
      (files.foldl (fun st f =>
        let r := create_dup_groups_one st.1 case_id f now
        (r.1, st.2 + r.2)) (d, n)).1 =
      files.foldl (fun d f => (create_dup_groups_one d case_id f now).1) d by
    exact h 0 db
  intro n d
  induction files generalizing n d with
  | nil => rfl
  | cons f fs ih => exact ih _ _

theorem dup_step_amop (db : Db) (case_id : String) (file : ProcessedFile)
    (now : Int) (hinv : atMostOnePrimary db.duplicate_groups) :
    atMostOnePrimary (create_dup_groups_one db case_id file now).1.duplicate_groups := by
  rcases create_dup_one_spec db case_id file now with ⟨tail, heq, _, hfreshP, htc⟩
  intro g
  rw [heq, List.filter_append, List.length_append]
  by_cases hp : ((tail.filter (fun d => decide (d.group_id = g) && d.is_primary)).length) = 0
  · rw [hp]
    simpa using hinv g
  · have hne : (tail.filter (fun d => decide (d.group_id = g) && d.is_primary)) ≠ [] := by
      intro hc
      rw [hc] at hp
      exact hp rfl
    rcases List.exists_mem_of_ne_nil _ hne with ⟨row, hrow⟩
    have hmemtail := (List.mem_filter.mp hrow).1
    have hpred := (List.mem_filter.mp hrow).2
    rw [Bool.and_eq_true] at hpred
    have hg : row.group_id = g := of_decide_eq_true hpred.1
    have hprim : row.is_primary = true := hpred.2
    have hold : (db.duplicate_groups.filter
        (fun d => decide (d.group_id = g) && d.is_primary)) = [] := by
      rw [List.filter_eq_nil_iff]
      intro d hd hdp
      rw [Bool.and_eq_true] at hdp
      exact hfreshP row hmemtail hprim d hd ((of_decide_eq_true hdp.1).trans hg.symm)
    rw [hold]
    simpa using htc g

theorem dup_step_filter_preserved (db : Db) (case_id : String)
    (file : ProcessedFile) (now : Int) (g : Nat)
    (hany : db.duplicate_groups.any (fun d => decide (d.group_id = g)) = true) :
    (create_dup_groups_one db case_id file now).1.duplicate_groups.filter
        (fun d => decide (d.group_id = g) && d.is_primary)
      = db.duplicate_groups.filter (fun d => decide (d.group_id = g) && d.is_primary) := by
  rcases create_dup_one_spec db case_id file now with ⟨tail, heq, _, hfreshP, _⟩
  rw [heq, List.filter_append]
  have htail : (tail.filter (fun d => decide (d.group_id = g) && d.is_primary)) = [] := by
    rw [List.filter_eq_nil_iff]
    intro d hd hdp
    rw [Bool.and_eq_true] at hdp
    rcases List.any_eq_true.mp hany with ⟨d0, hd0, hd0g⟩
    exact hfreshP d hd hdp.2 d0 hd0 ((of_decide_eq_true hd0g).trans (of_decide_eq_true hdp.1).symm)
  rw [htail, List.append_nil]

theorem dup_step_any_mono (db : Db) (case_id : String) (file : ProcessedFile)
    (now : Int) (q : DupRow → Bool)
    (hany : db.duplicate_groups.any q = true) :
    (create_dup_groups_one db case_id file now).1.duplicate_groups.any q = true := by
  rcases create_dup_one_spec db case_id file now with ⟨tail, heq, _, _, _⟩
  rw [heq, List.any_append, hany]
  rfl

/-- C8: over any run of duplicate grouping, (i) the duplicate_groups table
only grows (every prior row, primary flags included, is preserved in place as
a prefix), (ii) at-most-one-primary-per-group is preserved, (iii) a group
that already existed before the run keeps exactly its primary members (later
additions never re-elect the primary), and (iv) in each step the rows
inserted for the file being processed are non-primary. -/
theorem C8_duplicate_group_invariants (db : Db) (case_id : String)
    (files : List ProcessedFile) (now : Int) :
    (∃ tail, (batch_create_duplicate_groups db case_id files now).1.duplicate_groups
        = db.duplicate_groups ++ tail) ∧
    (atMostOnePrimary db.duplicate_groups →
      atMostOnePrimary (batch_create_duplicate_groups db case_id files now).1.duplicate_groups) ∧
    (∀ g, db.duplicate_groups.any (fun d => decide (d.group_id = g)) = true →
      (batch_create_duplicate_groups db case_id files now).1.duplicate_groups.filter
          (fun d => decide (d.group_id = g) && d.is_primary)
        = db.duplicate_groups.filter (fun d => decide (d.group_id = g) && d.is_primary)) ∧
    (∀ d2 f row, row ∈ (create_dup_groups_one d2 case_id f now).1.duplicate_groups →
      row ∉ d2.duplicate_groups → row.file_id = f.file_id → row.is_primary = false) := by
  have hstep4 : ∀ (d2 : Db) (f : ProcessedFile) (row : DupRow),
      row ∈ (create_dup_groups_one d2 case_id f now).1.duplicate_groups →
      row ∉ d2.duplicate_groups → row.file_id = f.file_id → row.is_primary = false := by
    intro d2 f row hmem hnot hfid
    rcases create_dup_one_spec d2 case_id f now with ⟨tail, heq, hnp, _, _⟩
    rw [heq] at hmem
    rcases List.mem_append.mp hmem with hm | hm
    · exact absurd hm hnot
    · exact hnp row hm hfid
  rw [batch_dup_fst]
  refine ⟨?_, ?_, ?_, hstep4⟩
  · -- prefix preservation
    induction files generalizing db with
    | nil => exact ⟨[], by simp⟩
    | cons f fs ih =>
      rcases create_dup_one_spec db case_id f now with ⟨tail1, heq1, _, _, _⟩
      rcases ih ((create_dup_groups_one db case_id f now).1) with ⟨tail2, heq2⟩
      rw [List.foldl_cons]
      exact ⟨tail1 ++ tail2, by rw [heq2, heq1, List.append_assoc]⟩
  · -- at most one primary
    intro hinv
    induction files generalizing db with
    | nil => exact hinv
    | cons f fs ih =>
      rw [List.foldl_cons]
      exact ih _ (dup_step_amop db case_id f now hinv)
  · -- primaries of preexisting groups unchanged
    intro g hany
    induction files generalizing db with
    | nil => rfl
    | cons f fs ih =>
      rw [List.foldl_cons]
      rw [ih _ (dup_step_any_mono db case_id f now _ hany)]
      exact dup_step_filter_preserved db case_id f now g hany


/-- A newly inserted file record for the C8 witness. -/
def c8Pf1 : ProcessedFile :=
  { file_id := "x1", case_id := "c", file_name := "p1", folder_path := "",
    absolute_path := "/p1", file_hash := some 7, file_type := "",
    file_size := 1, created_at := 0, modified_at := 1,
    source_directory := "/src", action := .Insert }

/-- Second file of the C8 witness. -/
def c8Pf2 : ProcessedFile := { c8Pf1 with file_id := "x2", absolute_path := "/p2" }

/-- Third file of the C8 witness. -/
def c8Pf3 : ProcessedFile := { c8Pf1 with file_id := "x3", absolute_path := "/p3" }

/-- Store for the C8 witness: the three identical files already inserted into
the files table of a local source, no groups yet. -/
def c8Db : Db :=
  { files := [insertedRow c8Pf1, insertedRow c8Pf2, insertedRow c8Pf3],
    notes := [], findings := [], duplicate_groups := [],
    case_sources := [{ case_id := "c", source_path := "/src",
                       source_location := "local" }] }

/-- Witness for C8_duplicate_group_invariants at a concrete input. -/
theorem C8_duplicate_group_invariants_witness :
    (∃ tail, (batch_create_duplicate_groups c8Db "c" [c8Pf1, c8Pf2, c8Pf3] 9).1.duplicate_groups
        = c8Db.duplicate_groups ++ tail) ∧
    (atMostOnePrimary c8Db.duplicate_groups →
      atMostOnePrimary (batch_create_duplicate_groups c8Db "c" [c8Pf1, c8Pf2, c8Pf3] 9).1.duplicate_groups) ∧
    (∀ g, c8Db.duplicate_groups.any (fun d => decide (d.group_id = g)) = true →
      (batch_create_duplicate_groups c8Db "c" [c8Pf1, c8Pf2, c8Pf3] 9).1.duplicate_groups.filter
          (fun d => decide (d.group_id = g) && d.is_primary)
        = c8Db.duplicate_groups.filter (fun d => decide (d.group_id = g) && d.is_primary)) ∧
    (∀ d2 f row, row ∈ (create_dup_groups_one d2 "c" f 9).1.duplicate_groups →
      row ∉ d2.duplicate_groups → row.file_id = f.file_id → row.is_primary = false) :=
  C8_duplicate_group_invariants c8Db "c" [c8Pf1, c8Pf2, c8Pf3] 9


/-! ## C2: rename preservation (failing-input evaluation) -/

/-- The C2 entry: flagged, annotated, recorded at /A. -/
def c2Row : FileRow :=
  { id := "e1", case_id := "c", file_name := "a", folder_path := "",
    absolute_path := "/A", file_hash := some 42, file_type := "",
    file_size := 1, created_at := 0, modified_at := 1, updated_at := 0,
    status := "flagged", tags := none, source_directory := "/src",
    deleted_at := none }

/-- The note attached to the C2 entry. -/
def c2Note : NoteRow := { id := "n1", case_id := "c", file_id := some "e1" }

/-- Store for the C2 run. -/
def c2Db : Db :=
  { files := [c2Row], notes := [c2Note], findings := [],
    duplicate_groups := [], case_sources := [] }

/-- Disk state for the C2 run: the backing file was moved to /B with
identical content (digest 42 under the identity digest); /A is gone. -/
def c2Fs : FileSystem :=
  [("/B", { content := 42, size := 1, created_at := 0, modified_at := 1 })]

/-- The walked record at the new path /B. -/
def c2Fm : ScannerFileMetadata :=
  { file_name := "b", folder_path := "", absolute_path := "/B", file_type := "" }

/-- C2 failing-input evaluation: resyncing after the move correctly reuses
entry e1 (no new entry, path updated to /B, the note untouched), but the
update batch demotes its status from flagged to in_progress instead of
preserving it, contradicting both the claim and the comment in the rename
branch of process_file_async ("Preserve status and other user data"). -/
theorem C2_rename_demotes_flagged :
    (ingest_files_to_case id c2Fs c2Db "c" "/src" [c2Fm] (fun _ => "fresh") true 100).1.files.map
        (fun r => (r.id, r.absolute_path, r.status))
      = [("e1", "/B", "in_progress")] ∧
    (ingest_files_to_case id c2Fs c2Db "c" "/src" [c2Fm] (fun _ => "fresh") true 100).2.files_inserted = 0 ∧
    (ingest_files_to_case id c2Fs c2Db "c" "/src" [c2Fm] (fun _ => "fresh") true 100).2.files_updated = 1 ∧
    (ingest_files_to_case id c2Fs c2Db "c" "/src" [c2Fm] (fun _ => "fresh") true 100).1.notes = c2Db.notes :=
  ⟨by decide, by decide, by decide, by decide⟩


/-! ## C1: idempotence of the sync pass -/

theorem process_ok (hash : Nat → Nat) (fs : FileSystem) (db : Db)
    (fm : ScannerFileMetadata) (case_id folder_path fresh_id : String)
    (f : FsFile) (hfs : fsLookup fs fm.absolute_path = some f) :
    ∃ pf n, process_file_async hash fs db fm case_id folder_path true fresh_id
      = .ok (pf, n) := by
  unfold process_file_async
  simp only [get_file_metadata_async, calculate_file_hash_secure, hfs, if_true]
  cases hrow : findByPath db case_id fm.absolute_path with
  | none =>
    cases hren : (renameCandidates db case_id (hash f.content) fm.absolute_path
        folder_path).find? (fun r => (fsLookup fs r.absolute_path).isNone) with
    | none => exact ⟨_, _, rfl⟩
    | some cand => exact ⟨_, _, rfl⟩
  | some row =>
    by_cases hdel : row.deleted_at.isSome = true
    · simp only [hdel, if_true]
      exact ⟨_, _, rfl⟩
    · simp only [hdel, Bool.false_eq_true, if_false]
      by_cases hsh : (! (! metadata_matches ⟨f.size, f.created_at, f.modified_at⟩
          row.file_size row.modified_at ||
          (decide (row.status = "reviewed") || decide (row.status = "flagged") ||
            decide (row.status = "finalized")))) = true
      · simp only [hsh, if_true]
        exact ⟨_, _, rfl⟩
      · simp only [hsh, Bool.false_eq_true, if_false]
        by_cases hh : row.file_hash = some (hash f.content)
        · simp only [hh, if_pos]
          exact ⟨_, _, rfl⟩
        · rw [if_neg hh]
          exact ⟨_, _, rfl⟩

theorem process_spec (hash : Nat → Nat) (fs : FileSystem) (db : Db)
    (fm : ScannerFileMetadata) (case_id folder_path fresh_id : String)
    (pf : ProcessedFile) (n : Nat) (f : FsFile)
    (hfs : fsLookup fs fm.absolute_path = some f)
    (heq : process_file_async hash fs db fm case_id folder_path true fresh_id
      = .ok (pf, n)) :
    pf.case_id = case_id ∧ pf.source_directory = folder_path ∧
    pf.absolute_path = fm.absolute_path ∧
    ((∃ row, findByPath db case_id fm.absolute_path = some row ∧ pf.action = .Skip ∧
        (row.deleted_at.isSome = true ∨
          (row.deleted_at = none ∧
            ((metadata_matches ⟨f.size, f.created_at, f.modified_at⟩
                row.file_size row.modified_at = true ∧
              ¬(row.status = "reviewed" ∨ row.status = "flagged" ∨
                row.status = "finalized")) ∨
             row.file_hash = some (hash f.content))))) ∨
     (∃ row, findByPath db case_id fm.absolute_path = some row ∧
        pf.action = .Update row.id ∧ row.deleted_at = none ∧
        pf.file_hash = some (hash f.content) ∧ pf.file_size = f.size ∧
        pf.modified_at = f.modified_at) ∨
     (findByPath db case_id fm.absolute_path = none ∧
      ∃ row, row ∈ renameCandidates db case_id (hash f.content) fm.absolute_path
          folder_path ∧
        fsLookup fs row.absolute_path = none ∧ pf.action = .Update row.id ∧
        pf.file_hash = some (hash f.content) ∧ pf.file_size = f.size ∧
        pf.modified_at = f.modified_at) ∨
     (findByPath db case_id fm.absolute_path = none ∧ pf.action = .Insert ∧
      pf.file_id = fresh_id ∧ pf.file_hash = some (hash f.content) ∧
      pf.file_size = f.size ∧ pf.modified_at = f.modified_at)) := by
  unfold process_file_async at heq
  simp only [get_file_metadata_async, calculate_file_hash_secure, hfs, if_true] at heq
  cases hrow : findByPath db case_id fm.absolute_path with
  | none =>
    rw [hrow] at heq
    cases hren : (renameCandidates db case_id (hash f.content) fm.absolute_path
        folder_path).find? (fun r => (fsLookup fs r.absolute_path).isNone) with
    | none =>
      rw [hren] at heq
      simp only [Except.ok.injEq, Prod.mk.injEq] at heq
      obtain ⟨hpf, -⟩ := heq
      subst hpf
      exact ⟨rfl, rfl, rfl, Or.inr (Or.inr (Or.inr ⟨rfl, rfl, rfl, rfl, rfl, rfl⟩))⟩
    | some cand =>
      rw [hren] at heq
      simp only [Except.ok.injEq, Prod.mk.injEq] at heq
      obtain ⟨hpf, -⟩ := heq
      subst hpf
      refine ⟨rfl, rfl, rfl, Or.inr (Or.inr (Or.inl ⟨rfl, cand,
        List.mem_of_find?_eq_some hren, ?_, rfl, rfl, rfl, rfl⟩))⟩
      have := List.find?_some hren
      exact Option.isNone_iff_eq_none.mp (by simpa using this)
  | some row =>
    rw [hrow] at heq
    by_cases hdel : row.deleted_at.isSome = true
    · simp only [hdel, if_true] at heq
      simp only [Except.ok.injEq, Prod.mk.injEq] at heq
      obtain ⟨hpf, -⟩ := heq
      subst hpf
      exact ⟨rfl, rfl, rfl, Or.inl ⟨row, rfl, rfl, Or.inl hdel⟩⟩
    · have hdelnone : row.deleted_at = none := by
        cases hd : row.deleted_at with
        | none => rfl
        | some v => rw [hd] at hdel; simp at hdel
      simp only [hdel, Bool.false_eq_true, if_false] at heq
      by_cases hmm : metadata_matches ⟨f.size, f.created_at, f.modified_at⟩
          row.file_size row.modified_at = true
      · by_cases hcrit : (decide (row.status = "reviewed") ||
            decide (row.status = "flagged") || decide (row.status = "finalized")) = true
        · -- metadata matches but critical status: hash computed
          have hsh : (! (! metadata_matches ⟨f.size, f.created_at, f.modified_at⟩
              row.file_size row.modified_at ||
              (decide (row.status = "reviewed") || decide (row.status = "flagged") ||
                decide (row.status = "finalized")))) = false := by
            rw [hmm, hcrit]
            rfl
          rw [hsh] at heq
          simp only [Bool.false_eq_true, if_false] at heq
          by_cases hh : row.file_hash = some (hash f.content)
          · rw [if_pos hh] at heq
            simp only [Except.ok.injEq, Prod.mk.injEq] at heq
            obtain ⟨hpf, -⟩ := heq
            subst hpf
            exact ⟨rfl, rfl, rfl, Or.inl ⟨row, rfl, rfl,
              Or.inr ⟨hdelnone, Or.inr hh⟩⟩⟩
          · rw [if_neg hh] at heq
            simp only [Except.ok.injEq, Prod.mk.injEq] at heq
            obtain ⟨hpf, -⟩ := heq
            subst hpf
            exact ⟨rfl, rfl, rfl, Or.inr (Or.inl ⟨row, rfl, rfl, hdelnone,
              rfl, rfl, rfl⟩)⟩
        · -- fast path: metadata matches, non-critical
          have hsh : (! (! metadata_matches ⟨f.size, f.created_at, f.modified_at⟩
              row.file_size row.modified_at ||
              (decide (row.status = "reviewed") || decide (row.status = "flagged") ||
                decide (row.status = "finalized")))) = true := by
            rw [hmm, Bool.eq_false_iff.mpr hcrit]
            rfl
          rw [hsh] at heq
          simp only [if_true] at heq
          simp only [Except.ok.injEq, Prod.mk.injEq] at heq
          obtain ⟨hpf, -⟩ := heq
          subst hpf
          refine ⟨rfl, rfl, rfl, Or.inl ⟨row, rfl, rfl,
            Or.inr ⟨hdelnone, Or.inl ⟨hmm, ?_⟩⟩⟩⟩
          rintro (hs | hs | hs) <;> exact hcrit (by simp [hs])
      · -- metadata differs: hash computed
        have hsh : (! (! metadata_matches ⟨f.size, f.created_at, f.modified_at⟩
            row.file_size row.modified_at ||
            (decide (row.status = "reviewed") || decide (row.status = "flagged") ||
              decide (row.status = "finalized")))) = false := by
          rw [Bool.eq_false_iff.mpr hmm]
          rfl
        rw [hsh] at heq
        simp only [Bool.false_eq_true, if_false] at heq
        by_cases hh : row.file_hash = some (hash f.content)
        · rw [if_pos hh] at heq
          simp only [Except.ok.injEq, Prod.mk.injEq] at heq
          obtain ⟨hpf, -⟩ := heq
          subst hpf
          exact ⟨rfl, rfl, rfl, Or.inl ⟨row, rfl, rfl,
            Or.inr ⟨hdelnone, Or.inr hh⟩⟩⟩
        · rw [if_neg hh] at heq
          simp only [Except.ok.injEq, Prod.mk.injEq] at heq
          obtain ⟨hpf, -⟩ := heq
          subst hpf
          exact ⟨rfl, rfl, rfl, Or.inr (Or.inl ⟨row, rfl, rfl, hdelnone,
            rfl, rfl, rfl⟩)⟩


theorem mem_passProcessed (hash : Nat → Nat) (fs : FileSystem) (db : Db)
    (case_id folder_path : String) (walked : List ScannerFileMetadata)
    (idFn : Nat → String) (incremental : Bool) (pf : ProcessedFile) :
    pf ∈ passProcessed hash fs db case_id folder_path walked idFn incremental ↔
      ∃ i fm, walked.get? i = some fm ∧ ∃ n,
        process_file_async hash fs db fm case_id folder_path incremental (idFn i)
          = .ok (pf, n) := by
  unfold passProcessed passResults
  rw [List.mem_filterMap]
  constructor
  · rintro ⟨r, hr, hmap⟩
    rcases List.mem_map.mp hr with ⟨⟨i, fm⟩, hmem, hre⟩
    cases r with
    | error e => simp [Except.toOption] at hmap
    | ok p =>
      simp only [Except.toOption, Option.map_some', Option.some.injEq] at hmap
      exact ⟨i, fm, List.mem_enum_iff_get?.mp hmem, p.2, by rw [← hmap]; exact hre⟩
  · rintro ⟨i, fm, hget, n, heq⟩
    refine ⟨.ok (pf, n), List.mem_map.mpr ⟨(i, fm),
      List.mem_enum_iff_get?.mpr hget, heq⟩, rfl⟩

theorem process_fs_of_ok (hash : Nat → Nat) (fs : FileSystem) (db : Db)
    (fm : ScannerFileMetadata) (case_id folder_path fresh_id : String)
    (pf : ProcessedFile) (n : Nat) (incremental : Bool)
    (heq : process_file_async hash fs db fm case_id folder_path incremental fresh_id
      = .ok (pf, n)) :
    ∃ f, fsLookup fs fm.absolute_path = some f := by
  unfold process_file_async at heq
  cases hfs : fsLookup fs fm.absolute_path with
  | some f => exact ⟨f, rfl⟩
  | none =>
    simp only [get_file_metadata_async, hfs] at heq
    exact Except.noConfusion heq

theorem process_fields_of_ok (hash : Nat → Nat) (fs : FileSystem) (db : Db)
    (fm : ScannerFileMetadata) (case_id folder_path fresh_id : String)
    (pf : ProcessedFile) (n : Nat)
    (heq : process_file_async hash fs db fm case_id folder_path true fresh_id
      = .ok (pf, n)) :
    pf.case_id = case_id ∧ pf.source_directory = folder_path ∧
    pf.absolute_path = fm.absolute_path := by
  rcases process_fs_of_ok hash fs db fm case_id folder_path fresh_id pf n true heq
    with ⟨f, hfs⟩
  rcases process_spec hash fs db fm case_id folder_path fresh_id pf n f hfs heq
    with ⟨h1, h2, h3, -⟩
  exact ⟨h1, h2, h3⟩

theorem passProcessed_path_unique (hash : Nat → Nat) (fs : FileSystem) (db : Db)
    (case_id folder_path : String) (walked : List ScannerFileMetadata)
    (idFn : Nat → String)
    (hpaths : (walked.map (fun fm => fm.absolute_path)).Nodup)
    (pf1 pf2 : ProcessedFile)
    (h1 : pf1 ∈ passProcessed hash fs db case_id folder_path walked idFn true)
    (h2 : pf2 ∈ passProcessed hash fs db case_id folder_path walked idFn true)
    (hpp : pf1.absolute_path = pf2.absolute_path) : pf1 = pf2 := by
  rcases (mem_passProcessed hash fs db case_id folder_path walked idFn true pf1).mp h1
    with ⟨i, fm1, hg1, n1, he1⟩
  rcases (mem_passProcessed hash fs db case_id folder_path walked idFn true pf2).mp h2
    with ⟨j, fm2, hg2, n2, he2⟩
  have hp1 := (process_fields_of_ok hash fs db fm1 case_id folder_path _ pf1 n1 he1).2.2
  have hp2 := (process_fields_of_ok hash fs db fm2 case_id folder_path _ pf2 n2 he2).2.2
  have hfm : fm1.absolute_path = fm2.absolute_path := by
    rw [← hp1, ← hp2, hpp]
  have hgm1 : (walked.map (fun fm => fm.absolute_path))[i]? = some fm1.absolute_path := by
    rw [List.getElem?_map, ← List.get?_eq_getElem?, hg1]
    rfl
  have hgm2 : (walked.map (fun fm => fm.absolute_path))[j]? = some fm2.absolute_path := by
    rw [List.getElem?_map, ← List.get?_eq_getElem?, hg2]
    rfl
  have hij : i = j := by
    refine List.getElem?_inj ?_ hpaths (by rw [hgm1, hgm2, hfm])
    rw [List.length_map]
    exact (List.get?_eq_some.mp hg1).1
  subst hij
  have hfm12 : fm1 = fm2 := by
    rw [hg1] at hg2
    exact Option.some.inj hg2
  subst hfm12
  rw [he1] at he2
  exact congrArg Prod.fst (Except.ok.inj he2)

/-! batch_update_files as a single map under pairwise-distinct targets -/

/-- The pending update targets of a batch, in order. -/
def updTargets (us : List ProcessedFile) : List String :=
  us.filterMap updTarget

/-- The status transition that batch_update_files reads for a target. -/
def newStatusFor (d : Db) (t : String) : Option String :=
  match d.files.find? (fun r => decide (r.id = t)) with
  | some row => demoteStatus row.status
  | none => none

/-- The net effect of an update batch on one row, when targets are pairwise
distinct: the row of the (unique) update aiming at its id, or the row
unchanged. -/
def finalRow (d : Db) (us : List ProcessedFile) (now : Int) (r : FileRow) : FileRow :=
  match us.find? (fun u => decide (updTarget u = some r.id)) with
  | some u => applyUpdateRow u now (newStatusFor d r.id) r
  | none => r

theorem updTarget_eq_some (u : ProcessedFile) (t : String) :
    updTarget u = some t ↔ u.action = .Update t := by
  unfold updTarget
  cases u.action <;> simp

theorem find?_updTarget_eq_none (us : List ProcessedFile) (t : String) :
    us.find? (fun u => decide (updTarget u = some t)) = none ↔ t ∉ updTargets us := by
  rw [List.find?_eq_none]
  unfold updTargets
  constructor
  · intro h hmem
    rcases List.mem_filterMap.mp hmem with ⟨u, hu, hut⟩
    exact h u hu (by simp [hut])
  · intro h u hu hd
    exact h (List.mem_filterMap.mpr ⟨u, hu, of_decide_eq_true hd⟩)

theorem find?_updTarget_eq_some (us : List ProcessedFile) (u : ProcessedFile)
    (t : String) (hnd : (updTargets us).Nodup) (hu : u ∈ us)
    (hut : updTarget u = some t) :
    us.find? (fun v => decide (updTarget v = some t)) = some u := by
  induction us with
  | nil => simp at hu
  | cons v vs ih =>
    rcases List.mem_cons.mp hu with rfl | hu2
    · exact List.find?_cons_of_pos _ (by simp [hut])
    · have hvt : updTarget v ≠ some t := by
        intro hv
        have hcons : updTargets (v :: vs) = t :: updTargets vs := by
          unfold updTargets
          rw [List.filterMap_cons, hv]
        rw [hcons] at hnd
        exact (List.nodup_cons.mp hnd).1
          (List.mem_filterMap.mpr ⟨u, hu2, hut⟩)
      rw [List.find?_cons_of_neg _ (by simp [hvt])]
      refine ih ?_ hu2
      unfold updTargets
      rw [updTargets] at hnd
      rw [List.filterMap_cons] at hnd
      cases hv : updTarget v with
      | none => rw [hv] at hnd; exact hnd
      | some t2 => rw [hv] at hnd; exact (List.nodup_cons.mp hnd).2

theorem newStatusFor_eq_bind (d : Db) (t : String) :
    newStatusFor d t = (statusOf d t).bind demoteStatus := by
  unfold newStatusFor statusOf
  cases d.files.find? (fun r => decide (r.id = t)) <;> rfl

theorem batch_update_eq_map (d : Db) (us : List ProcessedFile) (now : Int)
    (hnd : (updTargets us).Nodup) :
    (batch_update_files d us now).files = d.files.map (finalRow d us now) := by
  induction us generalizing d with
  | nil =>
    show d.files = _
    refine ((List.map_congr_left (fun r _ => ?_)).trans (List.map_id _)).symm
    unfold finalRow
    rw [List.find?_nil]
    rfl
  | cons u us2 ih =>
    rw [batch_update_cons]
    cases hu : updTarget u with
    | none =>
      rw [apply_update_one_of_no_target d u now hu]
      have hnd2 : (updTargets us2).Nodup := by
        rw [updTargets, List.filterMap_cons, hu] at hnd
        exact hnd
      rw [ih _ hnd2]
      refine List.map_congr_left (fun r _ => ?_)
      unfold finalRow
      rw [List.find?_cons_of_neg _ (by simp [hu])]
    | some t =>
      have hact : u.action = .Update t := (updTarget_eq_some u t).mp hu
      have hnd2 : (updTargets us2).Nodup ∧ t ∉ updTargets us2 := by
        rw [updTargets, List.filterMap_cons, hu] at hnd
        exact ⟨(List.nodup_cons.mp hnd).2, (List.nodup_cons.mp hnd).1⟩
      have happ : apply_update_one d u now =
          { d with files := d.files.map (fun r =>
              if r.id = t then applyUpdateRow u now (newStatusFor d t) r else r) } := by
        unfold apply_update_one
        rw [hact]
        rfl
      rw [happ, ih _ hnd2.1]
      show (d.files.map _).map _ = _
      rw [List.map_map]
      refine List.map_congr_left (fun r hr => ?_)
      show finalRow _ us2 now (if r.id = t then applyUpdateRow u now (newStatusFor d t) r else r)
        = finalRow d (u :: us2) now r
      by_cases hrt : r.id = t
      · rw [if_pos hrt]
        unfold finalRow
        rw [List.find?_cons_of_pos _ (by simp [hu, hrt])]
        have hnone : us2.find? (fun v => decide (updTarget v = some
            ((applyUpdateRow u now (newStatusFor d t) r).id))) = none := by
          rw [applyUpdateRow_id, hrt]
          exact (find?_updTarget_eq_none us2 t).mpr hnd2.2
        rw [hnone, hrt]
      · rw [if_neg hrt]
        unfold finalRow
        rw [List.find?_cons_of_neg _ (by
          intro hc
          have h2 := of_decide_eq_true hc
          rw [hu] at h2
          exact hrt (Option.some.inj h2).symm)]
        cases hf2 : us2.find? (fun v => decide (updTarget v = some r.id)) with
        | none => rfl
        | some u2 =>
          have hns : newStatusFor ({ d with files := d.files.map (fun r2 =>
              if r2.id = t then applyUpdateRow u now (newStatusFor d t) r2 else r2) } : Db)
              r.id = newStatusFor d r.id := by
            unfold newStatusFor
            rw [find?_map_of_id _ _ (fun r2 => by
              by_cases h2 : r2.id = t <;> simp [h2]) r.id]
            cases hf3 : d.files.find? (fun r2 => decide (r2.id = r.id)) with
            | none => rfl
            | some r0 =>
              have hid : r0.id = r.id := by simpa using List.find?_some hf3
              simp only [Option.map_some']
              rw [if_neg (fun hc => hrt (hid ▸ hc))]
          rw [hns]


theorem updTargets_filter_updates (us : List ProcessedFile) :
    updTargets (us.filter (fun p =>
      match p.action with | .Update _ => true | _ => false)) = updTargets us := by
  induction us with
  | nil => rfl
  | cons u us2 ih =>
    rw [List.filter_cons]
    unfold updTargets at ih ⊢
    cases hu : u.action with
    | Update t =>
      rw [if_pos (by simp [hu]), List.filterMap_cons, List.filterMap_cons,
        (updTarget_eq_some u t).mpr hu, ih]
    | Insert =>
      rw [if_neg (by simp [hu]), List.filterMap_cons,
        show updTarget u = none by unfold updTarget; rw [hu], ih]
    | Skip =>
      rw [if_neg (by simp [hu]), List.filterMap_cons,
        show updTarget u = none by unfold updTarget; rw [hu], ih]

theorem process_skip_of_synced (hash : Nat → Nat) (fs : FileSystem) (db' : Db)
    (fm : ScannerFileMetadata) (case_id folder_path fid : String) (f : FsFile)
    (row : FileRow)
    (hf : fsLookup fs fm.absolute_path = some f)
    (hrow : findByPath db' case_id fm.absolute_path = some row)
    (hcond : row.deleted_at.isSome = true ∨
      (row.deleted_at = none ∧
        ((metadata_matches ⟨f.size, f.created_at, f.modified_at⟩
            row.file_size row.modified_at = true ∧
          ¬(row.status = "reviewed" ∨ row.status = "flagged" ∨
            row.status = "finalized")) ∨
         row.file_hash = some (hash f.content)))) :
    ∃ pf n, process_file_async hash fs db' fm case_id folder_path true fid
      = .ok (pf, n) ∧ pf.action = .Skip := by
  unfold process_file_async
  simp only [get_file_metadata_async, calculate_file_hash_secure, hf, hrow, if_true]
  rcases hcond with hdel | ⟨hdelnone, hrest⟩
  · simp only [hdel, if_true]
    exact ⟨_, _, rfl, rfl⟩
  · have hdelb : row.deleted_at.isSome = false := by rw [hdelnone]; rfl
    simp only [hdelb, Bool.false_eq_true, if_false]
    rcases hrest with ⟨hmm, hncrit⟩ | hh
    · have h1 : row.status ≠ "reviewed" := fun hc => hncrit (Or.inl hc)
      have h2 : row.status ≠ "flagged" := fun hc => hncrit (Or.inr (Or.inl hc))
      have h3 : row.status ≠ "finalized" := fun hc => hncrit (Or.inr (Or.inr hc))
      have hsh : (! (! metadata_matches ⟨f.size, f.created_at, f.modified_at⟩
          row.file_size row.modified_at ||
          (decide (row.status = "reviewed") || decide (row.status = "flagged") ||
            decide (row.status = "finalized")))) = true := by
        rw [hmm]
        simp [h1, h2, h3]
      rw [hsh]
      simp only [if_true]
      exact ⟨_, _, rfl, rfl⟩
    · by_cases hfast : (! (! metadata_matches ⟨f.size, f.created_at, f.modified_at⟩
          row.file_size row.modified_at ||
          (decide (row.status = "reviewed") || decide (row.status = "flagged") ||
            decide (row.status = "finalized")))) = true
      · rw [hfast]
        simp only [if_true]
        exact ⟨_, _, rfl, rfl⟩
      · rw [Bool.not_eq_true] at hfast
        rw [hfast]
        simp only [Bool.false_eq_true, if_false]
        rw [if_pos hh]
        exact ⟨_, _, rfl, rfl⟩


@[simp] theorem applyUpdateRow_path (file : ProcessedFile) (now : Int)
    (ns : Option String) (r : FileRow) :
    (applyUpdateRow file now ns r).absolute_path = file.absolute_path := rfl

@[simp] theorem applyUpdateRow_hash (file : ProcessedFile) (now : Int)
    (ns : Option String) (r : FileRow) :
    (applyUpdateRow file now ns r).file_hash = file.file_hash := rfl

theorem find?_eq_some_of_unique {α : Type} (l : List α) (p : α → Bool) (y : α)
    (hy : y ∈ l) (hpy : p y = true) (huni : ∀ x ∈ l, p x = true → x = y) :
    l.find? p = some y := by
  induction l with
  | nil => simp at hy
  | cons a t ih =>
    by_cases hpa : p a = true
    · rw [List.find?_cons_of_pos _ hpa, huni a (List.mem_cons_self a t) hpa]
    · rw [List.find?_cons_of_neg _ hpa]
      rcases List.mem_cons.mp hy with rfl | hyt
      · exact absurd hpy hpa
      · exact ih hyt (fun x hx hpx => huni x (List.mem_cons_of_mem a hx) hpx)

theorem row_unique (db : Db) (hids : (db.files.map (fun r => r.id)).Nodup) :
    ∀ r1 ∈ db.files, ∀ r2 ∈ db.files, r1.id = r2.id → r1 = r2 :=
  fun r1 h1 r2 h2 he => List.inj_on_of_nodup_map hids h1 h2 he


theorem finalRow_untargeted (d : Db) (us : List ProcessedFile) (now : Int)
    (r : FileRow) (h : r.id ∉ updTargets us) : finalRow d us now r = r := by
  unfold finalRow
  rw [(find?_updTarget_eq_none us r.id).mpr h]

theorem finalRow_targeted (d : Db) (us : List ProcessedFile) (now : Int)
    (r : FileRow) (u : ProcessedFile) (hnd : (updTargets us).Nodup)
    (hu : u ∈ us) (hut : updTarget u = some r.id) :
    finalRow d us now r = applyUpdateRow u now (newStatusFor d r.id) r := by
  unfold finalRow
  rw [find?_updTarget_eq_some us u r.id hnd hu hut]

theorem finalRow_match (d : Db) (us : List ProcessedFile) (now : Int)
    (r : FileRow) (case_id p : String)
    (hq : decide ((finalRow d us now r).case_id = case_id ∧
      (finalRow d us now r).absolute_path = p) = true) :
    (finalRow d us now r = r ∧
      decide (r.case_id = case_id ∧ r.absolute_path = p) = true) ∨
    (∃ u ∈ us, updTarget u = some r.id ∧ u.absolute_path = p) := by
  unfold finalRow at hq ⊢
  cases hfind : us.find? (fun u => decide (updTarget u = some r.id)) with
  | none =>
    rw [hfind] at hq
    exact Or.inl ⟨rfl, hq⟩
  | some u =>
    rw [hfind] at hq
    have hpu : updTarget u = some r.id := by
      have h2 := List.find?_some hfind
      exact of_decide_eq_true h2
    refine Or.inr ⟨u, List.mem_of_find?_eq_some hfind, hpu, ?_⟩
    have h3 := (of_decide_eq_true hq).2
    rw [applyUpdateRow_path] at h3
    exact h3

theorem passInserts_ids (hash : Nat → Nat) (fs : FileSystem) (db : Db)
    (case_id folder_path : String) (walked : List ScannerFileMetadata)
    (idFn : Nat → String) :
    ∀ pj ∈ passInserts hash fs db case_id folder_path walked idFn true,
      pj.case_id = case_id ∧ ∃ j, pj.file_id = idFn j := by
  intro pj hpj
  have hmem : pj ∈ passProcessed hash fs db case_id folder_path walked idFn true :=
    (List.mem_filter.mp hpj).1
  have hact : pj.action = .Insert :=
    of_decide_eq_true (List.mem_filter.mp hpj).2
  rcases (mem_passProcessed hash fs db case_id folder_path walked idFn true pj).mp hmem
    with ⟨j, fmj, hgj, nj, hej⟩
  rcases process_fs_of_ok hash fs db fmj case_id folder_path _ pj nj true hej with ⟨fj, hfsj⟩
  rcases process_spec hash fs db fmj case_id folder_path _ pj nj fj hfsj hej
    with ⟨hc, -, -, hdisj⟩
  refine ⟨hc, j, ?_⟩
  rcases hdisj with ⟨row, -, hact2, -⟩ | ⟨row, -, hact2, -⟩ | ⟨-, row, -, -, hact2, -⟩ |
    ⟨-, -, hid, -⟩
  · rw [hact] at hact2; exact FileAction.noConfusion hact2
  · rw [hact] at hact2; exact FileAction.noConfusion hact2
  · rw [hact] at hact2; exact FileAction.noConfusion hact2
  · exact hid

theorem passUpdates_target_detail (hash : Nat → Nat) (fs : FileSystem) (db : Db)
    (case_id folder_path : String) (walked : List ScannerFileMetadata)
    (idFn : Nat → String) :
    ∀ u ∈ passUpdates hash fs db case_id folder_path walked idFn true, ∀ t,
      u.action = .Update t →
      ∃ rowT, rowT ∈ db.files ∧ rowT.id = t ∧ rowT.deleted_at = none ∧
        (rowT.absolute_path = u.absolute_path ∨ fsLookup fs rowT.absolute_path = none) := by
  intro u hu t hut
  have hmem : u ∈ passProcessed hash fs db case_id folder_path walked idFn true :=
    (List.mem_filter.mp hu).1
  rcases (mem_passProcessed hash fs db case_id folder_path walked idFn true u).mp hmem
    with ⟨j, fmj, hgj, nj, hej⟩
  rcases process_fs_of_ok hash fs db fmj case_id folder_path _ u nj true hej with ⟨fj, hfsj⟩
  rcases process_spec hash fs db fmj case_id folder_path _ u nj fj hfsj hej
    with ⟨-, -, hupath, hdisj⟩
  rcases hdisj with ⟨row, hfind, hact2, -⟩ | ⟨row, hfind, hact2, hdel, -⟩ |
    ⟨hnone, row, hcand, hlook, hact2, -⟩ | ⟨-, hact2, -⟩
  · rw [hut] at hact2; exact FileAction.noConfusion hact2
  · have hid : row.id = t := by
      rw [hut] at hact2
      exact (FileAction.Update.inj hact2).symm
    have hrowmem : row ∈ db.files := by
      unfold findByPath at hfind
      exact List.mem_of_find?_eq_some hfind
    have hrowpath : row.absolute_path = fmj.absolute_path := by
      unfold findByPath at hfind
      have h2 := List.find?_some hfind
      exact (of_decide_eq_true h2).2
    exact ⟨row, hrowmem, hid, hdel, Or.inl (by rw [hrowpath, hupath])⟩
  · have hid : row.id = t := by
      rw [hut] at hact2
      exact (FileAction.Update.inj hact2).symm
    have hrowmem : row ∈ db.files := (List.mem_filter.mp hcand).1
    have hrowdel : row.deleted_at = none := by
      have := (List.mem_filter.mp hcand).2
      rw [Bool.and_eq_true] at this
      exact Option.isNone_iff_eq_none.mp this.2
    exact ⟨row, hrowmem, hid, hrowdel, Or.inr hlook⟩
  · rw [hut] at hact2; exact FileAction.noConfusion hact2

theorem find?_map_comm {α : Type} (l : List α) (F : α → α) (p : α → Bool)
    (h : ∀ r ∈ l, p (F r) = p r) : (l.map F).find? p = (l.find? p).map F := by
  induction l with
  | nil => rfl
  | cons a t ih =>
    rw [List.map_cons]
    by_cases hpa : p a = true
    · rw [List.find?_cons_of_pos _ (by rw [h a (List.mem_cons_self a t)]; exact hpa),
        List.find?_cons_of_pos _ hpa, Option.map_some']
    · rw [List.find?_cons_of_neg _ (by rw [h a (List.mem_cons_self a t)]; exact hpa),
        List.find?_cons_of_neg _ hpa,
        ih (fun r hr => h r (List.mem_cons_of_mem a hr))]

theorem mem_updTargets (us : List ProcessedFile) (t : String) :
    t ∈ updTargets us ↔ ∃ u ∈ us, updTarget u = some t := by
  unfold updTargets
  exact List.mem_filterMap

theorem pass2_skip (hash : Nat → Nat) (fs : FileSystem) (db0 : Db)
    (case_id folder_path : String) (walked : List ScannerFileMetadata)
    (idFn : Nat → String) (now : Int)
    (hpaths : (walked.map (fun fm => fm.absolute_path)).Nodup)
    (hdisk : ∀ fm ∈ walked, ∃ f, fsLookup fs fm.absolute_path = some f)
    (hids : (db0.files.map (fun r => r.id)).Nodup)
    (hfresh : ∀ j : Nat, ∀ r ∈ db0.files, r.id ≠ idFn j)
    (htargets : (updTargets (passProcessed hash fs db0 case_id folder_path walked
      idFn true)).Nodup)
    (fm : ScannerFileMetadata) (hfm : fm ∈ walked) (fid : String) :
    ∃ pf n, process_file_async hash fs
        (batch_update_files
          (batch_insert_files db0
            (passInserts hash fs db0 case_id folder_path walked idFn true))
          (passUpdates hash fs db0 case_id folder_path walked idFn true) now)
        fm case_id folder_path true fid = .ok (pf, n) ∧ pf.action = .Skip := by
  obtain ⟨f, hf⟩ := hdisk fm hfm
  obtain ⟨i, hgi⟩ := List.mem_iff_get?.mp hfm
  obtain ⟨pf, n, hej⟩ := process_ok hash fs db0 fm case_id folder_path (idFn i) f hf
  have hpfmem : pf ∈ passProcessed hash fs db0 case_id folder_path walked idFn true :=
    (mem_passProcessed hash fs db0 case_id folder_path walked idFn true pf).mpr
      ⟨i, fm, hgi, n, hej⟩
  obtain ⟨hpc, hps, hpp, hdisj⟩ :=
    process_spec hash fs db0 fm case_id folder_path (idFn i) pf n f hf hej
  set ins := passInserts hash fs db0 case_id folder_path walked idFn true with hins
  set ups := passUpdates hash fs db0 case_id folder_path walked idFn true with hups
  set db1 := batch_insert_files db0 ins with hdb1
  set db2 := batch_update_files db1 ups now with hdb2def
  have hndups : (updTargets ups).Nodup := by
    rw [hups]
    unfold passUpdates
    rw [updTargets_filter_updates]
    exact htargets
  have hdb2files : db2.files = db1.files.map (finalRow db1 ups now) := by
    rw [hdb2def]
    exact batch_update_eq_map db1 ups now hndups
  have hdb1files : db1.files = db0.files ++ ins.map insertedRow := by
    rw [hdb1]
    rfl
  have hupeq : ∀ u ∈ ups, u.absolute_path = fm.absolute_path → u = pf := by
    intro u hu hupath
    have hu2 := hu
    rw [hups] at hu2
    unfold passUpdates at hu2
    exact passProcessed_path_unique hash fs db0 case_id folder_path walked idFn hpaths
      u pf (List.mem_filter.mp hu2).1 hpfmem (by rw [hupath, hpp])
  have htgt : ∀ u ∈ ups, ∀ t, updTarget u = some t →
      ∃ rowT, rowT ∈ db0.files ∧ rowT.id = t ∧ rowT.deleted_at = none ∧
        (rowT.absolute_path = u.absolute_path ∨ fsLookup fs rowT.absolute_path = none) := by
    intro u hu t hut
    have hu2 := hu
    rw [hups] at hu2
    exact passUpdates_target_detail hash fs db0 case_id folder_path walked idFn u hu2 t
      ((updTarget_eq_some u t).mp hut)
  have htgtrow : ∀ u ∈ ups, ∀ r ∈ db0.files, updTarget u = some r.id →
      r.deleted_at = none ∧
      (r.absolute_path = u.absolute_path ∨ fsLookup fs r.absolute_path = none) := by
    intro u hu r hr hut
    obtain ⟨rowT, hrT, hrTid, hrTdel, hrTpath⟩ := htgt u hu r.id hut
    have hrTr : rowT = r := row_unique db0 hids rowT hrT r hr hrTid
    subst hrTr
    exact ⟨hrTdel, hrTpath⟩
  have hinsid : ∀ q ∈ ins, q.case_id = case_id ∧ ∃ j, q.file_id = idFn j := by
    intro q hq
    have hq2 := hq
    rw [hins] at hq2
    exact passInserts_ids hash fs db0 case_id folder_path walked idFn q hq2
  have hinsuntouched : ∀ q ∈ ins,
      finalRow db1 ups now (insertedRow q) = insertedRow q := by
    intro q hq
    refine finalRow_untargeted db1 ups now (insertedRow q) ?_
    intro hmemT
    obtain ⟨u, hu, hut⟩ := (mem_updTargets ups (insertedRow q).id).mp hmemT
    obtain ⟨rowT, hrT, hrTid, -, -⟩ := htgt u hu _ hut
    obtain ⟨-, j, hqid⟩ := hinsid q hq
    exact hfresh j rowT hrT (by rw [hrTid]; exact hqid)
  rcases hdisj with ⟨row, hrow, hact, hcond⟩ |
    ⟨row, hrow, hact, hdel, hhash, hsize, hmod⟩ |
    ⟨hnone, row, hcand, hlook, hact, hhash, hsize, hmod⟩ |
    ⟨hnone, hact, hid, hhash, hsize, hmod⟩
  · -- pass 1 classified Skip: the entry is untouched and still in sync
    have hrow2 := hrow
    unfold findByPath at hrow2
    have hrowmem : row ∈ db0.files := List.mem_of_find?_eq_some hrow2
    have hrowpred : row.case_id = case_id ∧ row.absolute_path = fm.absolute_path := by
      have h2 := List.find?_some hrow2
      exact of_decide_eq_true h2
    have hnoup : ∀ u ∈ ups, u.absolute_path ≠ fm.absolute_path := by
      intro u hu hupath
      have hu2 := hu
      rw [hups] at hu2
      unfold passUpdates at hu2
      have hmatch := (List.mem_filter.mp hu2).2
      have hueq : u = pf := hupeq u hu hupath
      subst hueq
      rw [hact] at hmatch
      exact Bool.noConfusion hmatch
    have hrownot : row.id ∉ updTargets ups := by
      intro hmemT
      obtain ⟨u, hu, hut⟩ := (mem_updTargets ups row.id).mp hmemT
      obtain ⟨-, hpath⟩ := htgtrow u hu row hrowmem hut
      rcases hpath with heq2 | hnonec
      · exact hnoup u hu (by rw [← heq2, hrowpred.2])
      · rw [hrowpred.2, hf] at hnonec
        exact Option.noConfusion hnonec
    have hcomm : ∀ r ∈ db0.files,
        decide ((finalRow db1 ups now r).case_id = case_id ∧
          (finalRow db1 ups now r).absolute_path = fm.absolute_path) =
        decide (r.case_id = case_id ∧ r.absolute_path = fm.absolute_path) := by
      intro r hr
      by_cases hrt : r.id ∈ updTargets ups
      · obtain ⟨u, hu, hut⟩ := (mem_updTargets ups r.id).mp hrt
        have hFr := finalRow_targeted db1 ups now r u hndups hu hut
        rw [hFr, applyUpdateRow_case, applyUpdateRow_path]
        have hL : decide (r.case_id = case_id ∧ u.absolute_path = fm.absolute_path)
            = false := decide_eq_false (fun hc => hnoup u hu hc.2)
        have hR : decide (r.case_id = case_id ∧ r.absolute_path = fm.absolute_path)
            = false := by
          refine decide_eq_false ?_
          rintro ⟨-, hrp⟩
          obtain ⟨-, hpath⟩ := htgtrow u hu r hr hut
          rcases hpath with heq2 | hnonec
          · exact hnoup u hu (by rw [← heq2, hrp])
          · rw [hrp, hf] at hnonec
            exact Option.noConfusion hnonec
        rw [hL, hR]
      · rw [finalRow_untargeted db1 ups now r hrt]
    have hFrow : finalRow db1 ups now row = row :=
      finalRow_untargeted db1 ups now row hrownot
    have hfind2 : findByPath db2 case_id fm.absolute_path = some row := by
      unfold findByPath
      rw [hdb2files, hdb1files, List.map_append, List.find?_append,
        find?_map_comm db0.files (finalRow db1 ups now) _ hcomm, hrow2,
        Option.map_some', hFrow]
      rfl
    exact process_skip_of_synced hash fs db2 fm case_id folder_path fid f row
      hf hfind2 hcond
  · -- pass 1 updated the entry in place: the stored fingerprint now matches
    have hrow2 := hrow
    unfold findByPath at hrow2
    have hrowmem : row ∈ db0.files := List.mem_of_find?_eq_some hrow2
    have hrowpred : row.case_id = case_id ∧ row.absolute_path = fm.absolute_path := by
      have h2 := List.find?_some hrow2
      exact of_decide_eq_true h2
    have hpfups : pf ∈ ups := by
      rw [hups]
      unfold passUpdates
      refine List.mem_filter.mpr ⟨hpfmem, ?_⟩
      rw [hact]
    have hpt : updTarget pf = some row.id := (updTarget_eq_some pf row.id).mpr hact
    have hFrow : finalRow db1 ups now row =
        applyUpdateRow pf now (newStatusFor db1 row.id) row :=
      finalRow_targeted db1 ups now row pf hndups hpfups hpt
    have hcomm : ∀ r ∈ db0.files,
        decide ((finalRow db1 ups now r).case_id = case_id ∧
          (finalRow db1 ups now r).absolute_path = fm.absolute_path) =
        decide (r.case_id = case_id ∧ r.absolute_path = fm.absolute_path) := by
      intro r hr
      by_cases hrt : r.id ∈ updTargets ups
      · obtain ⟨u, hu, hut⟩ := (mem_updTargets ups r.id).mp hrt
        have hFr := finalRow_targeted db1 ups now r u hndups hu hut
        rw [hFr, applyUpdateRow_case, applyUpdateRow_path]
        by_cases hup : u.absolute_path = fm.absolute_path
        · have hueq : u = pf := hupeq u hu hup
          have hpt2 := hpt
          rw [hueq] at hut
          rw [hut] at hpt2
          have hrid : r.id = row.id := Option.some.inj hpt2
          have hreq : r = row := row_unique db0 hids r hr row hrowmem hrid
          have hL : decide (r.case_id = case_id ∧ u.absolute_path = fm.absolute_path)
              = true := decide_eq_true ⟨by rw [hreq]; exact hrowpred.1, hup⟩
          have hR : decide (r.case_id = case_id ∧ r.absolute_path = fm.absolute_path)
              = true := decide_eq_true ⟨by rw [hreq]; exact hrowpred.1,
                by rw [hreq]; exact hrowpred.2⟩
          rw [hL, hR]
        · have hL : decide (r.case_id = case_id ∧ u.absolute_path = fm.absolute_path)
              = false := decide_eq_false (fun hc => hup hc.2)
          have hR : decide (r.case_id = case_id ∧ r.absolute_path = fm.absolute_path)
              = false := by
            refine decide_eq_false ?_
            rintro ⟨-, hrp⟩
            obtain ⟨-, hpath⟩ := htgtrow u hu r hr hut
            rcases hpath with heq2 | hnonec
            · exact hup (by rw [← heq2, hrp])
            · rw [hrp, hf] at hnonec
              exact Option.noConfusion hnonec
          rw [hL, hR]
      · rw [finalRow_untargeted db1 ups now r hrt]
    have hfind2 : findByPath db2 case_id fm.absolute_path =
        some (applyUpdateRow pf now (newStatusFor db1 row.id) row) := by
      unfold findByPath
      rw [hdb2files, hdb1files, List.map_append, List.find?_append,
        find?_map_comm db0.files (finalRow db1 ups now) _ hcomm, hrow2,
        Option.map_some', hFrow]
      rfl
    refine process_skip_of_synced hash fs db2 fm case_id folder_path fid f _
      hf hfind2 (Or.inr ⟨?_, Or.inr ?_⟩)
    · rw [applyUpdateRow_deleted]
      exact hdel
    · rw [applyUpdateRow_hash]
      exact hhash
  · -- pass 1 resolved a rename: the entry now sits at the walked path
    have hnone2 := hnone
    unfold findByPath at hnone2
    have hcand2 := hcand
    unfold renameCandidates at hcand2
    have hrowmem : row ∈ db0.files := (List.mem_filter.mp hcand2).1
    have hcandp := (List.mem_filter.mp hcand2).2
    rw [Bool.and_eq_true] at hcandp
    have hrowprops : row.case_id = case_id ∧ row.file_hash = some (hash f.content) ∧
        row.absolute_path ≠ fm.absolute_path ∧ row.source_directory = folder_path :=
      of_decide_eq_true hcandp.1
    have hrowdel : row.deleted_at = none := Option.isNone_iff_eq_none.mp hcandp.2
    have hpfups : pf ∈ ups := by
      rw [hups]
      unfold passUpdates
      refine List.mem_filter.mpr ⟨hpfmem, ?_⟩
      rw [hact]
    have hpt : updTarget pf = some row.id := (updTarget_eq_some pf row.id).mpr hact
    have hFrow : finalRow db1 ups now row =
        applyUpdateRow pf now (newStatusFor db1 row.id) row :=
      finalRow_targeted db1 ups now row pf hndups hpfups hpt
    have hfind0 : (db0.files.map (finalRow db1 ups now)).find?
        (fun r => decide (r.case_id = case_id ∧ r.absolute_path = fm.absolute_path)) =
        some (applyUpdateRow pf now (newStatusFor db1 row.id) row) := by
      rw [← hFrow]
      refine find?_eq_some_of_unique _ _ _ (List.mem_map_of_mem _ hrowmem) ?_ ?_
      · have h1 : (applyUpdateRow pf now (newStatusFor db1 row.id) row).case_id
            = case_id := by
          rw [applyUpdateRow_case]
          exact hrowprops.1
        have h2 : (applyUpdateRow pf now (newStatusFor db1 row.id) row).absolute_path
            = fm.absolute_path := by
          rw [applyUpdateRow_path]
          exact hpp
        rw [hFrow]
        exact decide_eq_true ⟨h1, h2⟩
      · intro x hx hpx
        obtain ⟨r, hr, hxr⟩ := List.mem_map.mp hx
        subst hxr
        rcases finalRow_match db1 ups now r case_id fm.absolute_path hpx with
          ⟨hFr, hpr⟩ | ⟨u, hu, hut, hupath⟩
        · have hc := of_decide_eq_true hpr
          have := List.find?_eq_none.mp hnone2 r hr
          exact absurd (decide_eq_true hc) this
        · have hueq : u = pf := hupeq u hu hupath
          subst hueq
          have hrid : r.id = row.id := by
            rw [hpt] at hut
            exact (Option.some.inj hut).symm
          have hreq : r = row := row_unique db0 hids r hr row hrowmem hrid
          rw [hreq]
    have hfind2 : findByPath db2 case_id fm.absolute_path =
        some (applyUpdateRow pf now (newStatusFor db1 row.id) row) := by
      unfold findByPath
      rw [hdb2files, hdb1files, List.map_append, List.find?_append, hfind0]
      rfl
    refine process_skip_of_synced hash fs db2 fm case_id folder_path fid f _
      hf hfind2 (Or.inr ⟨?_, Or.inr ?_⟩)
    · rw [applyUpdateRow_deleted]
      exact hrowdel
    · rw [applyUpdateRow_hash]
      exact hhash
  · -- pass 1 inserted: the fresh row sits at the walked path and matches
    have hnone2 := hnone
    unfold findByPath at hnone2
    have hpfins : pf ∈ ins := by
      rw [hins]
      unfold passInserts
      exact List.mem_filter.mpr ⟨hpfmem, decide_eq_true hact⟩
    have hy : finalRow db1 ups now (insertedRow pf) = insertedRow pf :=
      hinsuntouched pf hpfins
    have hymem : insertedRow pf ∈ db1.files := by
      rw [hdb1files]
      exact List.mem_append_right _ (List.mem_map_of_mem _ hpfins)
    have hfind2 : findByPath db2 case_id fm.absolute_path = some (insertedRow pf) := by
      unfold findByPath
      rw [hdb2files]
      refine find?_eq_some_of_unique _ _ _ ?_ ?_ ?_
      · rw [← hy]
        exact List.mem_map_of_mem _ hymem
      · have h1 : (insertedRow pf).case_id = case_id := hpc
        have h2 : (insertedRow pf).absolute_path = fm.absolute_path := hpp
        exact decide_eq_true ⟨h1, h2⟩
      · intro x hx hpx
        obtain ⟨r, hr, hxr⟩ := List.mem_map.mp hx
        subst hxr
        rw [hdb1files] at hr
        rcases List.mem_append.mp hr with hr0 | hrins
        · rcases finalRow_match db1 ups now r case_id fm.absolute_path hpx with
            ⟨hFr, hpr⟩ | ⟨u, hu, hut, hupath⟩
          · have hc := of_decide_eq_true hpr
            have := List.find?_eq_none.mp hnone2 r hr0
            exact absurd (decide_eq_true hc) this
          · have hueq : u = pf := hupeq u hu hupath
            subst hueq
            have hu2 := hu
            rw [hups] at hu2
            unfold passUpdates at hu2
            have hmatch := (List.mem_filter.mp hu2).2
            rw [hact] at hmatch
            exact Bool.noConfusion hmatch
        · obtain ⟨q, hq, hqr⟩ := List.mem_map.mp hrins
          subst hqr
          have hFq : finalRow db1 ups now (insertedRow q) = insertedRow q :=
            hinsuntouched q hq
          rw [hFq] at hpx ⊢
          have hqp := of_decide_eq_true hpx
          have hqmem : q ∈ passProcessed hash fs db0 case_id folder_path walked
              idFn true := by
            have hq2 := hq
            rw [hins] at hq2
            unfold passInserts at hq2
            exact (List.mem_filter.mp hq2).1
          have hqpf : q = pf := by
            refine passProcessed_path_unique hash fs db0 case_id folder_path walked
              idFn hpaths q pf hqmem hpfmem ?_
            rw [hpp]
            exact hqp.2
          rw [hqpf]
    refine process_skip_of_synced hash fs db2 fm case_id folder_path fid f _
      hf hfind2 (Or.inr ⟨rfl, Or.inr ?_⟩)
    exact hhash

/-- The C1 starting entry: recorded at /A, which is gone from disk. -/
def c1Row : FileRow :=
  { id := "f1", case_id := "c", file_name := "a", folder_path := "",
    absolute_path := "/A", file_hash := some 42, file_type := "",
    file_size := 1, created_at := 0, modified_at := 1, updated_at := 0,
    status := "unreviewed", tags := none, source_directory := "/src",
    deleted_at := none }

/-- Store for the C1 counterexample run. -/
def c1Db : Db :=
  { files := [c1Row], notes := [], findings := [], duplicate_groups := [],
    case_sources := [] }

/-- Disk state for the C1 counterexample run: two copies of the same content
at /B and /C; /A is gone. -/
def c1Fs : FileSystem :=
  [("/B", { content := 42, size := 1, created_at := 0, modified_at := 1 }),
   ("/C", { content := 42, size := 1, created_at := 0, modified_at := 1 })]

/-- The walked record at /B. -/
def c1FmB : ScannerFileMetadata :=
  { file_name := "b", folder_path := "", absolute_path := "/B", file_type := "" }

/-- The walked record at /C. -/
def c1FmC : ScannerFileMetadata :=
  { file_name := "c", folder_path := "", absolute_path := "/C", file_type := "" }

/-- C1, counterexample: with nothing changing on disk between two passes, the
second pass still inserts a row.  Both walked duplicates /B and /C rename-match
the one missing entry f1 in pass 1 (two updates to the same id); the second
update wins, so after pass 1 the entry sits at /C, and in pass 2 the walked /B
finds no entry by path and no rename candidate whose stored path is absent from
disk, so it is classified Insert: pass 2 performs a catalog mutation. -/
theorem C1_sync_idempotent_counterexample :
    (ingest_files_to_case id c1Fs c1Db "c" "/src" [c1FmB, c1FmC]
        (fun j => "g" ++ toString j) true 100).2.files_inserted = 0 ∧
    (ingest_files_to_case id c1Fs c1Db "c" "/src" [c1FmB, c1FmC]
        (fun j => "g" ++ toString j) true 100).2.files_updated = 2 ∧
    (ingest_files_to_case id c1Fs
        (ingest_files_to_case id c1Fs c1Db "c" "/src" [c1FmB, c1FmC]
          (fun j => "g" ++ toString j) true 100).1
        "c" "/src" [c1FmB, c1FmC] (fun j => "h" ++ toString j)
        true 200).2.files_inserted = 1 :=
  ⟨by decide, by decide, by decide⟩

/-- C1 (amended): idempotence of the sync pass.  If the walked paths are
pairwise distinct, every walked file is present on disk, the stored ids are
pairwise distinct, the fresh ids drawn in pass 1 do not collide with stored
ids, and the update targets of pass 1 are pairwise distinct (no two walked
files resolve to the same entry, the situation of the counterexample), then a
second pass over the unchanged source classifies every file as Skip: it
performs zero Inserts, zero Updates, and leaves the store untouched. -/
theorem C1_sync_idempotent_amended (hash : Nat → Nat) (fs : FileSystem) (db0 : Db)
    (case_id folder_path : String) (walked : List ScannerFileMetadata)
    (idFn idFn2 : Nat → String) (now now2 : Int)
    (hpaths : (walked.map (fun fm => fm.absolute_path)).Nodup)
    (hdisk : ∀ fm ∈ walked, ∃ f, fsLookup fs fm.absolute_path = some f)
    (hids : (db0.files.map (fun r => r.id)).Nodup)
    (hfresh : ∀ j : Nat, ∀ r ∈ db0.files, r.id ≠ idFn j)
    (htargets : (updTargets (passProcessed hash fs db0 case_id folder_path walked
      idFn true)).Nodup) :
    (ingest_files_to_case hash fs
        (ingest_files_to_case hash fs db0 case_id folder_path walked idFn true now).1
        case_id folder_path walked idFn2 true now2).2.files_inserted = 0 ∧
    (ingest_files_to_case hash fs
        (ingest_files_to_case hash fs db0 case_id folder_path walked idFn true now).1
        case_id folder_path walked idFn2 true now2).2.files_updated = 0 ∧
    (ingest_files_to_case hash fs
        (ingest_files_to_case hash fs db0 case_id folder_path walked idFn true now).1
        case_id folder_path walked idFn2 true now2).1 =
      (ingest_files_to_case hash fs db0 case_id folder_path walked idFn true now).1 := by
  have hdb2eq : (ingest_files_to_case hash fs db0 case_id folder_path walked idFn
      true now).1 =
      batch_update_files
        (batch_insert_files db0
          (passInserts hash fs db0 case_id folder_path walked idFn true))
        (passUpdates hash fs db0 case_id folder_path walked idFn true) now := rfl
  have hall : ∀ pf2 ∈ passProcessed hash fs
      (ingest_files_to_case hash fs db0 case_id folder_path walked idFn true now).1
      case_id folder_path walked idFn2 true, pf2.action = .Skip := by
    intro pf2 hmem
    rcases (mem_passProcessed hash fs _ case_id folder_path walked idFn2 true pf2).mp
      hmem with ⟨i, fm, hgi, n, hej⟩
    obtain ⟨pf, n2, hok, hskipact⟩ := pass2_skip hash fs db0 case_id folder_path
      walked idFn now hpaths hdisk hids hfresh htargets fm (List.get?_mem hgi) (idFn2 i)
    rw [hdb2eq] at hej
    rw [hej] at hok
    have hpp2 : pf2 = pf := congrArg Prod.fst (Except.ok.inj hok)
    rw [hpp2]
    exact hskipact
  have hins2 : passInserts hash fs
      (ingest_files_to_case hash fs db0 case_id folder_path walked idFn true now).1
      case_id folder_path walked idFn2 true = [] := by
    unfold passInserts
    refine List.filter_eq_nil.mpr ?_
    intro p hp hdec
    rw [hall p hp] at hdec
    exact absurd (of_decide_eq_true hdec) (fun hc => FileAction.noConfusion hc)
  have hupd2 : passUpdates hash fs
      (ingest_files_to_case hash fs db0 case_id folder_path walked idFn true now).1
      case_id folder_path walked idFn2 true = [] := by
    unfold passUpdates
    refine List.filter_eq_nil.mpr ?_
    intro p hp hdec
    rw [hall p hp] at hdec
    exact Bool.noConfusion hdec
  refine ⟨?_, ?_, ?_⟩
  · show (passInserts hash fs
        (ingest_files_to_case hash fs db0 case_id folder_path walked idFn true now).1
        case_id folder_path walked idFn2 true).length = 0
    rw [hins2]
    rfl
  · show (passUpdates hash fs
        (ingest_files_to_case hash fs db0 case_id folder_path walked idFn true now).1
        case_id folder_path walked idFn2 true).length = 0
    rw [hupd2]
    rfl
  · show batch_update_files
        (batch_insert_files
          (ingest_files_to_case hash fs db0 case_id folder_path walked idFn
            true now).1
          (passInserts hash fs
            (ingest_files_to_case hash fs db0 case_id folder_path walked idFn
              true now).1
            case_id folder_path walked idFn2 true))
        (passUpdates hash fs
          (ingest_files_to_case hash fs db0 case_id folder_path walked idFn
            true now).1
          case_id folder_path walked idFn2 true) now2 =
      (ingest_files_to_case hash fs db0 case_id folder_path walked idFn true now).1
    rw [hins2, hupd2]
    show batch_insert_files
        (ingest_files_to_case hash fs db0 case_id folder_path walked idFn
          true now).1 [] =
      (ingest_files_to_case hash fs db0 case_id folder_path walked idFn true now).1
    unfold batch_insert_files
    rw [List.map_nil, List.append_nil]

/-- The entry of the C1 witness run, backed by an unchanged file at /A. -/
def c1wRow : FileRow :=
  { id := "f1", case_id := "c", file_name := "a", folder_path := "",
    absolute_path := "/A", file_hash := some 42, file_type := "",
    file_size := 1, created_at := 0, modified_at := 1, updated_at := 0,
    status := "unreviewed", tags := none, source_directory := "/src",
    deleted_at := none }

/-- Store for the C1 witness run. -/
def c1wDb : Db :=
  { files := [c1wRow], notes := [], findings := [], duplicate_groups := [],
    case_sources := [] }

/-- Disk state for the C1 witness run. -/
def c1wFs : FileSystem :=
  [("/A", { content := 42, size := 1, created_at := 0, modified_at := 1 })]

/-- The walked record at /A. -/
def c1wFm : ScannerFileMetadata :=
  { file_name := "a", folder_path := "", absolute_path := "/A", file_type := "" }

/-- C1 witness: the amended idempotence theorem applied to a concrete
one-file source. -/
theorem C1_sync_idempotent_amended_witness :
    (ingest_files_to_case id c1wFs
        (ingest_files_to_case id c1wFs c1wDb "c" "/src" [c1wFm] (fun _ => "w1")
          true 100).1
        "c" "/src" [c1wFm] (fun _ => "w2") true 200).2.files_inserted = 0 ∧
    (ingest_files_to_case id c1wFs
        (ingest_files_to_case id c1wFs c1wDb "c" "/src" [c1wFm] (fun _ => "w1")
          true 100).1
        "c" "/src" [c1wFm] (fun _ => "w2") true 200).2.files_updated = 0 ∧
    (ingest_files_to_case id c1wFs
        (ingest_files_to_case id c1wFs c1wDb "c" "/src" [c1wFm] (fun _ => "w1")
          true 100).1
        "c" "/src" [c1wFm] (fun _ => "w2") true 200).1 =
      (ingest_files_to_case id c1wFs c1wDb "c" "/src" [c1wFm] (fun _ => "w1")
        true 100).1 :=
  C1_sync_idempotent_amended id c1wFs c1wDb "c" "/src" [c1wFm] (fun _ => "w1")
    (fun _ => "w2") 100 200 (by decide)
    (by
      intro fm hfm
      rw [List.mem_singleton] at hfm
      subst hfm
      exact ⟨_, rfl⟩)
    (by decide)
    (by
      intro j r hr
      have hr2 : r ∈ [c1wRow] := hr
      rw [List.mem_singleton] at hr2
      subst hr2
      show "f1" ≠ "w1"
      decide)
    (by decide)

end Inventory
